import Mathlib

/-!
# lua-std-regex (`lregex.cpp`): a shallow embedding

`lregex.cpp` binds `std::regex` to Lua: `regex.find`, `regex.match`, `regex.gmatch`
and `regex.gsub`.  The file has three collaborators that are not part of it and that
the embedding takes as follows.

* The Lua C API (`lauxlib.h`).  The value stack of the running C function is a list
  (index 1 first, top last); calls back into Lua (`lua_call`, `lua_gettable`) go through
  a `Host` record that owns an abstract world state, so callbacks may be stateful and may
  raise errors.  The stack is unbounded: running out of memory is not part of the model.
* The regex engine (`std::regex`, `std::regex_search`, `match_results::format`).  It is
  an `Engine` record: what a pattern compiles to, and what a search over a range finds.
* `std::match_results`, `std::sub_match` and `std::regex_iterator`.  They are written out
  after the C++ standard ([re.results], [re.submatch], [re.regiter]): in particular the
  increment and the equality of `regex_iterator`, on which `gsub` relies.

Texts are byte strings and may hold the byte 0; a `const char*` read as a C string
stops at the first such byte (`c_str`).  `int` is 32 bits wide, `lua_Integer` is wider:
a `lua_Integer` stored in an `int` is reduced modulo 2^32 (`to_int`), and incrementing
an `int` that holds 2147483647 is undefined.
-/

namespace LuaStdRegex

/-! ## Texts and machine integers -/

/-- A Lua string: a sequence of bytes. -/
abbrev Text := List Char

/-- The terminating byte of a C string. -/
def NUL : Char := Char.ofNat 0

/-- The characters a `const char*` designates when it is read as a C string (`strlen`,
`std::string_view{const char*}`, `std::string{const char*}`): those before the first NUL. -/
def c_str (s : Text) : Text := s.takeWhile (fun c => c != NUL)

/-- The `n` characters at offset `first` of a buffer (`lua_pushlstring(L, p, n)`,
`std::string::append(p, n)`). -/
def slice (buf : Text) (first n : Nat) : Text := (buf.drop first).take n

/-- Conversion of a `lua_Integer` to `int` (32 bits, two's complement). -/
def to_int (x : Int) : Int := (x + 2147483648) % 4294967296 - 2147483648

/-- The least value of `int`. -/
def INT_MIN : Int := -2147483648

/-- The greatest value of `int`. -/
def INT_MAX : Int := 2147483647

/-! ## Lua values and the host -/

/-- The values of the Lua stack.  Functions, tables and userdata are references; a float
is kept as its bit pattern, which only the host interprets. -/
inductive LuaValue where
  | nil
  | boolean (b : Bool)
  | integer (i : Int)
  | float (bits : Nat)
  | string (s : Text)
  | function (ref : Nat)
  | cfunction (name : String)
  | table (ref : Nat)
  | userdata (addr : Nat) (tname : Option String)
deriving DecidableEq, Repr

/-- Ways in which a C function of the library does not return normally. -/
inductive Abort where
  /-- Raised by `luaL_argerror(L, arg, msg)`. -/
  | argerror (arg : Nat) (msg : String)
  /-- Raised by `luaL_typeerror(L, arg, tname)`. -/
  | typeerror (arg : Nat) (tname : String)
  /-- Raised by `luaL_error(L, msg)`. -/
  | error (msg : String)
  /-- An error raised inside the host: by a callback or a metamethod. -/
  | raised (v : LuaValue)
  /-- The C++ standard leaves the behaviour undefined. -/
  | undefined
  /-- The loop was cut off by the fuel of the model. -/
  | out_of_fuel
deriving DecidableEq, Repr

/-- What the Lua runtime does on behalf of the library.  `W` is the state of everything
outside the running C function (tables, upvalues of callbacks, ...). -/
structure Host (W : Type) where
  /-- Exact conversion of a float to an integer (`lua_tointegerx`). -/
  float_tointeger : Nat → Option Int
  /-- Conversion of a numeral string to an integer (`lua_tointegerx`). -/
  string_tointeger : Text → Option Int
  /-- The text of a number (`lua_tolstring` on an integer or a float). -/
  number_tostring : LuaValue → Text
  /-- Length of a value that is not a string (`luaL_len`). -/
  len : W → LuaValue → Except LuaValue Int
  /-- Calling a value with arguments (`lua_call`): the results, or an error. -/
  call : W → LuaValue → List LuaValue → Except LuaValue (List LuaValue × W)
  /-- Indexing a value with a key (`lua_gettable`, metamethods included). -/
  gettable : W → LuaValue → LuaValue → Except LuaValue (LuaValue × W)

/-- A call the library made into the host. -/
inductive Event where
  | call (f : LuaValue) (args : List LuaValue)
  | gettable (t : LuaValue) (key : LuaValue)
deriving DecidableEq, Repr

/-! ## `std::sub_match`, `std::match_results`, `std::regex_search` -/

/-- A `std::sub_match`: two offsets into the searched buffer and the `matched` flag. -/
structure sub_match where
  first : Nat
  second : Nat
  matched : Bool
deriving DecidableEq, Repr

/-- The `sub_match::length()`: `matched ? distance(first, second) : 0`. -/
def sub_match.length (m : sub_match) : Nat := if m.matched then m.second - m.first else 0

/-- The `sub_match::str()`: the matched characters, empty when `matched` is false. -/
def sub_match.str (buf : Text) (m : sub_match) : Text :=
  if m.matched then slice buf m.first (m.second - m.first) else []

/-- The sub_match of a group that took no part in a match. -/
def unmatched (e : Nat) : sub_match := ⟨e, e, false⟩

/-- The `regex_constants::match_flag_type` bits that `regex_iterator` uses. -/
structure match_flags where
  prev_avail : Bool
  not_null : Bool
  continuous : Bool
deriving DecidableEq, Repr

/-- The `regex_constants::match_default`. -/
def match_default : match_flags := ⟨false, false, false⟩

/-- A `std::match_results` (`std::cmatch`).  `subs` holds slot 0 (the whole match) and the
capture groups, so `size()` is `subs.length`; `base` is the position `position()` counts
from. -/
structure match_results where
  subs : List sub_match
  pfx : sub_match
  sfx : sub_match
  base : Nat
deriving DecidableEq, Repr

/-- The `match_results::size()`. -/
def match_results.size (m : match_results) : Nat := m.subs.length

/-- The `match_results::operator[]`: an unmatched sub_match beyond `size()`. -/
def match_results.get (m : match_results) (i : Nat) : sub_match :=
  m.subs.getD i (unmatched m.sfx.second)

/-- The `match_results::position(i)`: `distance(base, (*this)[i].first)`. -/
def match_results.position (m : match_results) (i : Nat) : Int :=
  ((m.get i).first : Int) - (m.base : Int)

/-- The `match_results::length(i)`. -/
def match_results.length (m : match_results) (i : Nat) : Nat := (m.get i).length

/-- What a successful search determines: the range of the whole match and the sub_matches
of the capture groups. -/
structure found where
  first : Nat
  second : Nat
  captures : List sub_match
deriving DecidableEq, Repr

/-- The regex engine.  `R` is the type of compiled patterns. -/
structure Engine (R : Type) where
  /-- Constructing `std::regex{pattern}`: the regex, or the text of the `regex_error`. -/
  compile : Text → Except String R
  /-- Searching the range `[first, last)` of a buffer under the given flags. -/
  search : R → Text → Nat → Nat → match_flags → Option found
  /-- The `match_results::format`: the expansion of a template for a match. -/
  format : Text → match_results → Text → Text

/-- The `std::regex_search(first, last, m, re, flags)`: the match_results `m` it leaves
([re.alg.search]).  On failure `m.size()` is 0. -/
def regex_search {R : Type} (E : Engine R) (re : R) (buf : Text) (first last : Nat)
    (flags : match_flags) : match_results :=
  match E.search re buf first last flags with
  | none => ⟨[], unmatched last, unmatched last, first⟩
  | some f =>
    ⟨⟨f.first, f.second, true⟩ :: f.captures,
     ⟨first, f.first, first != f.first⟩,
     ⟨f.second, last, f.second != last⟩,
     first⟩

/-! ## `std::regex_iterator` -/

/-- A `std::regex_iterator`.  `pregex` is the pointer to the regex: `none` is the null
pointer of the end-of-sequence iterator. -/
structure regex_iterator (R : Type) where
  begin_ : Nat
  end_ : Nat
  pregex : Option R
  flags : match_flags
  mtch : match_results
deriving DecidableEq, Repr

/-- The default-constructed `regex_iterator`, the end-of-sequence iterator. -/
def end_of_sequence {R : Type} : regex_iterator R :=
  ⟨0, 0, none, match_default, ⟨[], unmatched 0, unmatched 0, 0⟩⟩

/-- The `regex_iterator(a, b, re)`: the first match in `[a, b)`, or end-of-sequence. -/
def regex_iterator.ctor {R : Type} (E : Engine R) (re : R) (buf : Text) (a b : Nat) :
    regex_iterator R :=
  let m := regex_search E re buf a b match_default
  if m.size = 0 then end_of_sequence else ⟨a, b, some re, match_default, m⟩

/-- The adjustment every successful search of `operator++` gets: the prefix starts where
the previous match ended and positions count from the start of the sequence. -/
def adjust (m : match_results) (prefix_first begin_ : Nat) : match_results :=
  { m with pfx := ⟨prefix_first, m.pfx.second, prefix_first != m.pfx.second⟩, base := begin_ }

/-- The last step of `operator++`: set `match_prev_avail` and search from `start`. -/
def regex_iterator.search_on {R : Type} (E : Engine R) (buf : Text) (it : regex_iterator R)
    (re : R) (start prefix_first : Nat) : regex_iterator R :=
  let flags := { it.flags with prev_avail := true }
  let m := regex_search E re buf start it.end_ flags
  if m.size = 0 then end_of_sequence
  else { it with flags := flags, mtch := adjust m prefix_first it.begin_ }

/-- The `regex_iterator::operator++` ([re.regiter.incr]).  Incrementing the
end-of-sequence iterator is undefined. -/
def regex_iterator.incr {R : Type} (E : Engine R) (buf : Text) (it : regex_iterator R) :
    Except Abort (regex_iterator R) :=
  match it.pregex with
  | none => .error .undefined
  | some re =>
    let m0 := it.mtch.get 0
    let start := m0.second
    if m0.first = m0.second then
      if start = it.end_ then .ok end_of_sequence
      else
        let m := regex_search E re buf start it.end_
          { it.flags with not_null := true, continuous := true }
        if m.size = 0 then .ok (it.search_on E buf re (start + 1) m0.second)
        else .ok { it with mtch := adjust m m0.second it.begin_ }
    else .ok (it.search_on E buf re start m0.second)

/-- The `regex_iterator::operator==` ([re.regiter.comp]): two end-of-sequence iterators
are equal; otherwise the pointers, the range, the flags and `match[0]` are compared, and
two sub_matches are equal when their texts are (`sub_match::compare`).  All the iterators
of one call point to the one regex of that call, so comparing the pointers is comparing
`pregex`. -/
def regex_iterator.eq {R : Type} [DecidableEq R] (buf : Text) (a b : regex_iterator R) :
    Bool :=
  if a.pregex = none ∧ b.pregex = none then true
  else decide (a.pregex = b.pregex) && decide (a.begin_ = b.begin_)
    && decide (a.end_ = b.end_) && decide (a.flags = b.flags)
    && decide ((a.mtch.get 0).str buf = (b.mtch.get 0).str buf)

/-! ## The Lua state and the C API -/

/-- The `Generator` class: a private copy of the subject, a view of the copy, a copy of
the regex, the iterator and the end-of-sequence iterator `last`. -/
structure Generator (R : Type) where
  s : Text
  sv : Text
  re : R
  it : regex_iterator R
  last : regex_iterator R

/-- The `lua_State` as a C function of the library sees it: its own stack frame (index 1
first, the top last), the world of the host, the userdata blocks that hold a `Generator`,
and the record of the calls made into the host (oldest first). -/
structure lua_State (R W : Type) where
  stack : List LuaValue
  world : W
  heap : List (Generator R)
  events : List Event

/-- The basic types `lua_type` tells apart. -/
inductive lua_Type where
  | TNONE | TNIL | TBOOLEAN | TNUMBER | TSTRING | TTABLE | TFUNCTION | TUSERDATA
deriving DecidableEq, Repr

/-- The type tag of a value. -/
def LuaValue.type : LuaValue → lua_Type
  | .nil => .TNIL
  | .boolean _ => .TBOOLEAN
  | .integer _ => .TNUMBER
  | .float _ => .TNUMBER
  | .string _ => .TSTRING
  | .function _ => .TFUNCTION
  | .cfunction _ => .TFUNCTION
  | .table _ => .TTABLE
  | .userdata _ _ => .TUSERDATA

/-- Truth of a value (`lua_toboolean`): everything but `nil` and `false`. -/
def LuaValue.truthy : LuaValue → Bool
  | .nil => false
  | .boolean b => b
  | _ => true

/-- Whether a value is a string or a number, which converts to one (`lua_isstring`). -/
def LuaValue.isstring (v : LuaValue) : Bool :=
  decide (v.type = .TSTRING) || decide (v.type = .TNUMBER)

section api

variable {R W : Type}

/-- The `lua_absindex`: a negative index counts from the top. -/
def lua_absindex (L : lua_State R W) (idx : Int) : Int :=
  if idx > 0 then idx else (L.stack.length : Int) + idx + 1

/-- The value at an acceptable index, if there is one. -/
def index2value (L : lua_State R W) (idx : Int) : Option LuaValue :=
  let i := lua_absindex L idx
  if i ≥ 1 then L.stack.get? (i - 1).toNat else none

/-- The `lua_type(L, idx)`. -/
def lua_type (L : lua_State R W) (idx : Int) : lua_Type :=
  match index2value L idx with
  | none => .TNONE
  | some v => v.type

/-- The `lua_isnil(L, idx)`. -/
def lua_isnil (L : lua_State R W) (idx : Int) : Bool := decide (lua_type L idx = .TNIL)

/-- The `lua_isstring(L, idx)`. -/
def lua_isstring (L : lua_State R W) (idx : Int) : Bool :=
  match index2value L idx with
  | none => false
  | some v => v.isstring

/-- The `lua_isfunction(L, idx)`. -/
def lua_isfunction (L : lua_State R W) (idx : Int) : Bool :=
  decide (lua_type L idx = .TFUNCTION)

/-- The `lua_istable(L, idx)`. -/
def lua_istable (L : lua_State R W) (idx : Int) : Bool := decide (lua_type L idx = .TTABLE)

/-- The `lua_toboolean(L, idx)`. -/
def lua_toboolean (L : lua_State R W) (idx : Int) : Bool :=
  match index2value L idx with
  | none => false
  | some v => v.truthy

/-- Pushing a value onto the stack. -/
def push (L : lua_State R W) (v : LuaValue) : lua_State R W :=
  { L with stack := L.stack ++ [v] }

/-- The `lua_pushnil(L)`. -/
def lua_pushnil (L : lua_State R W) : lua_State R W := push L .nil

/-- The `lua_pushinteger(L, n)`. -/
def lua_pushinteger (L : lua_State R W) (n : Int) : lua_State R W := push L (.integer n)

/-- The `lua_pushlstring(L, p, n)` for the `n` bytes at offset `first` of `buf`. -/
def lua_pushlstring (L : lua_State R W) (buf : Text) (first n : Nat) : lua_State R W :=
  push L (.string (slice buf first n))

/-- The `lua_pushstring(L, p)`: the C string at `p`. -/
def lua_pushstring (L : lua_State R W) (p : Text) : lua_State R W :=
  push L (.string (c_str p))

/-- The `lua_pushvalue(L, idx)`. -/
def lua_pushvalue (L : lua_State R W) (idx : Int) : lua_State R W :=
  push L ((index2value L idx).getD .nil)

/-- The `lua_pop(L, n)`. -/
def lua_pop (L : lua_State R W) (n : Nat) : lua_State R W :=
  { L with stack := L.stack.take (L.stack.length - n) }

/-- The `lua_insert(L, idx)`: moves the top element into position `idx`, shifting up the
elements above that position. -/
def lua_insert (L : lua_State R W) (idx : Int) : lua_State R W :=
  let p := (lua_absindex L idx - 1).toNat
  match L.stack.getLast? with
  | none => L
  | some top =>
    let rest := L.stack.dropLast
    { L with stack := rest.take p ++ top :: rest.drop p }

/-- The `luaL_checkstack(L, space, msg)`: always granted, the stack being unbounded. -/
def luaL_checkstack (L : lua_State R W) (_space : Nat) (_msg : String) : lua_State R W := L

variable (H : Host W)

/-- The `lua_tointegerx`: the integer a value converts to. -/
def lua_tointegerx : LuaValue → Option Int
  | .integer i => some i
  | .float bits => H.float_tointeger bits
  | .string s => H.string_tointeger s
  | _ => none

/-- The `lua_tolstring` on a value for which `lua_isstring` holds. -/
def lua_tostring (v : LuaValue) : Text :=
  match v with
  | .string s => s
  | _ => H.number_tostring v

/-- The `luaL_checkstring(L, arg)`: the string at `arg`; a number there is converted in
place; anything else is a type error. -/
def luaL_checkstring (L : lua_State R W) (arg : Nat) : Except Abort (Text × lua_State R W) :=
  match index2value L arg with
  | some (.string s) => .ok (s, L)
  | some (.integer i) =>
    let t := H.number_tostring (.integer i)
    .ok (t, { L with stack := L.stack.set (arg - 1) (.string t) })
  | some (.float b) =>
    let t := H.number_tostring (.float b)
    .ok (t, { L with stack := L.stack.set (arg - 1) (.string t) })
  | _ => .error (.typeerror arg "string")

/-- The `luaL_optinteger(L, arg, def)`: `def` when the argument is absent or nil. -/
def luaL_optinteger (L : lua_State R W) (arg : Nat) (dflt : Int) : Except Abort Int :=
  match index2value L arg with
  | none => .ok dflt
  | some .nil => .ok dflt
  | some v =>
    match lua_tointegerx H v with
    | some i => .ok i
    | none =>
      if v.type = .TNUMBER then .error (.argerror arg "number has no integer representation")
      else .error (.typeerror arg "number")

/-- The `luaL_len(L, idx)`: the length of a string is its number of bytes. -/
def luaL_len (L : lua_State R W) (idx : Nat) : Except Abort Int :=
  match index2value L idx with
  | some (.string s) => .ok s.length
  | some v =>
    match H.len L.world v with
    | .ok n => .ok n
    | .error e => .error (.raised e)
  | none => .error (.error "object length is not an integer")

/-- The `lua_gettable(L, idx)`: pops the key and pushes `t[key]` for the value `t` at
`idx`. -/
def lua_gettable (L : lua_State R W) (idx : Int) : Except Abort (lua_State R W) :=
  let t := (index2value L idx).getD .nil
  let key := L.stack.getLast?.getD .nil
  match H.gettable L.world t key with
  | .error e => .error (.raised e)
  | .ok (v, w) =>
    .ok { L with stack := L.stack.dropLast ++ [v], world := w,
                 events := L.events ++ [.gettable t key] }

/-- The `lua_call(L, nargs, 1)`: pops the function and its `nargs` arguments and pushes
the first result (nil when there is none). -/
def lua_call (L : lua_State R W) (nargs : Nat) : Except Abort (lua_State R W) :=
  let below := L.stack.take (L.stack.length - (nargs + 1))
  let f := (L.stack.get? (L.stack.length - (nargs + 1))).getD .nil
  let args := L.stack.drop (L.stack.length - nargs)
  match H.call L.world f args with
  | .error e => .error (.raised e)
  | .ok (rs, w) =>
    .ok { L with stack := below ++ [rs.headD .nil], world := w,
                 events := L.events ++ [.call f args] }

/-- The `lua_tolstring(L, idx, NULL)` on a string or a number: a number is converted in
place. -/
def lua_tolstring (L : lua_State R W) (idx : Int) : Text × lua_State R W :=
  match index2value L idx with
  | some (.string s) => (s, L)
  | some v =>
    let t := H.number_tostring v
    (t, { L with stack := L.stack.set (lua_absindex L idx - 1).toNat (.string t) })
  | none => ([], L)

/-- The `luaL_typename(L, idx)`. -/
def luaL_typename (L : lua_State R W) (idx : Int) : String :=
  match lua_type L idx with
  | .TNONE => "no value"
  | .TNIL => "nil"
  | .TBOOLEAN => "boolean"
  | .TNUMBER => "number"
  | .TSTRING => "string"
  | .TTABLE => "table"
  | .TFUNCTION => "function"
  | .TUSERDATA => "userdata"

/-- The `luaL_checkudata(L, arg, tname)`: the address of the userdata at `arg`, which
must carry the metatable registered under `tname`. -/
def luaL_checkudata (L : lua_State R W) (arg : Nat) (tname : String) : Except Abort Nat :=
  match index2value L arg with
  | some (.userdata addr (some t)) =>
    if t = tname then .ok addr else .error (.typeerror arg tname)
  | _ => .error (.typeerror arg tname)

/-- The `luaL_newmetatable(L, tname)` followed by `lua_setmetatable(L, -2)`: the userdata
on top of the stack gets the metatable registered under `tname` (whose `__gc` entry only
matters to the collector). -/
def setmetatable_top (L : lua_State R W) (tname : String) : lua_State R W :=
  match L.stack.getLast? with
  | some (.userdata addr _) =>
    { L with stack := L.stack.dropLast ++ [.userdata addr (some tname)] }
  | _ => L

end api

/-! ## The library: `lregex.cpp` -/

section lregex

variable {R W : Type} [DecidableEq R] (E : Engine R) (H : Host W)

/-- Constructs a `std::regex` from the second argument; raises an argument error when
`std::regex` throws. -/
def get_regex (L : lua_State R W) : Except Abort (R × lua_State R W) :=
  match luaL_checkstring H L 2 with
  | .error e => .error e
  | .ok (p, L1) =>
    match E.compile (c_str p) with
    | .ok re => .ok (re, L1)
    | .error what => .error (.argerror 2 ("invalid regex: " ++ what))

/-- Returns the search offset from the third argument, both it and the length of the
subject being held in an `int`. -/
def get_init (L : lua_State R W) : Except Abort Int :=
  match luaL_optinteger H L 3 1 with
  | .error e => .error e
  | .ok init0 =>
    match luaL_len H L 1 with
    | .error e => .error e
    | .ok len0 =>
      let init := to_int init0
      let len := to_int len0
      if init > 0 then .ok (if init ≤ len then init - 1 else len)
      else if init < 0 ∧ init + len < INT_MIN then .error .undefined
      else
        let init := if init < 0 then init + len else init
        .ok (if init > 0 ∧ init < len then init else 0)

/-- Returns the result of `std::regex_search` over the subject from `get_init` on, with
the view of the subject it refers to.  Moving the start outside the view is undefined.
(C++ leaves open which of `get_init` and `get_regex` runs first; when both return, the
result is the same.) -/
def search (L : lua_State R W) : Except Abort (match_results × Text × lua_State R W) :=
  match luaL_checkstring H L 1 with
  | .error e => .error e
  | .ok (s, L1) =>
    let sv := c_str s
    match get_init H L1 with
    | .error e => .error e
    | .ok init =>
      match get_regex E H L1 with
      | .error e => .error e
      | .ok (re, L2) =>
        if init < 0 ∨ (sv.length : Int) < init then .error .undefined
        else .ok (regex_search E re sv init.toNat sv.length match_default, sv, L2)

/-- Pushes a search result: nil for no match, the entire match when there are no captures
(unless `only_subs`), else all captures.  Returns the number of values pushed. -/
def push_results (L : lua_State R W) (buf : Text) (m : match_results) (only_subs : Bool) :
    Nat × lua_State R W :=
  if m.size = 0 then (1, lua_pushnil L)
  else if m.size = 1 ∧ only_subs = false then
    (1, lua_pushlstring L buf (m.get 0).first (m.get 0).length)
  else
    let L1 := luaL_checkstack L (m.size - 1) "too many captures"
    let L2 := (List.range' 1 (m.size - 1)).foldl
      (fun L i => lua_pushlstring L buf (m.get i).first (m.get i).length) L1
    (m.size - 1, L2)

/-- The `regex.find()` Lua function. -/
def find (L : lua_State R W) : Except Abort (Nat × lua_State R W) :=
  match search E H L with
  | .error e => .error e
  | .ok (m, sv, L1) =>
    match get_init H L1 with
    | .error e => .error e
    | .ok init =>
      let (n, L2) := push_results L1 sv m true
      if n = 1 ∧ lua_isnil L2 (-1) = true then .ok (n, L2)
      else
        let L3 := lua_insert (lua_pushinteger L2 (init + m.position 0 + 1)) (-(n : Int) - 1)
        let L4 := lua_insert (lua_pushinteger L3 (init + m.position 0 + m.length 0))
          (-(n : Int) - 1)
        .ok (2 + n, L4)

/-- The constructor of `Generator`: copies the subject and starts the iterator at offset
`init` of the copy. -/
def Generator.ctor (s_ : Text) (re : R) (init : Int) : Except Abort (Generator R) :=
  let s := c_str s_
  let sv := c_str s
  if init < 0 ∨ (sv.length : Int) < init then .error .undefined
  else .ok ⟨s, sv, re, regex_iterator.ctor E re sv init.toNat sv.length, end_of_sequence⟩

/-- The `Generator::next()`: `return it++`. -/
def Generator.next (g : Generator R) : Except Abort (regex_iterator R × Generator R) :=
  match g.it.incr E g.sv with
  | .error e => .error e
  | .ok it1 => .ok (g.it, { g with it := it1 })

/-- The `Generator::end()`. -/
def Generator.end_ (g : Generator R) : regex_iterator R := g.last

/-- Generator function returned by `regex.gmatch()`. -/
def generator (L : lua_State R W) : Except Abort (Nat × lua_State R W) :=
  match luaL_checkudata L 1 "regex_gmatch" with
  | .error e => .error e
  | .ok addr =>
    match L.heap.get? addr with
    | none => .error .undefined
    | some gen =>
      match gen.next E with
      | .error e => .error e
      | .ok (m, gen1) =>
        let L1 := { L with heap := L.heap.set addr gen1 }
        if regex_iterator.eq gen1.sv m gen1.end_ = false then
          .ok (push_results L1 gen1.sv m.mtch false)
        else .ok (1, lua_pushnil L1)

/-- The `regex.gmatch()` Lua function. -/
def gmatch (L : lua_State R W) : Except Abort (Nat × lua_State R W) :=
  match get_init H L with
  | .error e => .error e
  | .ok init =>
    let L1 := push L (.cfunction "generator")
    let L2 := push L1 (.userdata L1.heap.length none)
    match luaL_checkstring H L2 1 with
    | .error e => .error e
    | .ok (s, L3) =>
      match get_regex E H L3 with
      | .error e => .error e
      | .ok (re, L4) =>
        match Generator.ctor E s re init with
        | .error e => .error e
        | .ok gen =>
          let L5 := { L4 with heap := L4.heap ++ [gen] }
          let L6 := setmetatable_top L5 "regex_gmatch"
          .ok (3, lua_pushnil L6)

/-- The variables of the loop of `gsub`.  The count `n` is an `int`: its value is an
integer that `n++` keeps below 2147483648 (see `gsub_body`). -/
structure gsub_state (R W : Type) where
  L : lua_State R W
  n : Int
  result : Text
  it : regex_iterator R
  last_it : regex_iterator R

/-- One pass through the body of the loop of `gsub`, for the match `st.it` is at.  Each
branch ends with `n++` on the `int` count: at 2147483647 the increment overflows, which
is undefined. -/
def gsub_body (sv : Text) (repl : lua_Type) (st : gsub_state R W) :
    Except Abort (gsub_state R W) :=
  let m := st.it.mtch
  let result := st.result ++ slice sv m.pfx.first m.pfx.length
  if repl = .TTABLE ∨ repl = .TFUNCTION then
    let called :=
      if repl = .TTABLE then
        let (k, L1) := push_results st.L sv m false
        lua_gettable H (lua_pop L1 (k - 1)) 3
      else
        let (k, L1) := push_results (lua_pushvalue st.L 3) sv m false
        lua_call H L1 k
    match called with
    | .error e => .error e
    | .ok L2 =>
      if lua_toboolean L2 (-1) = true then
        if lua_isstring L2 (-1) = false then
          .error (.error ("invalid replacement value (a " ++ luaL_typename L2 (-1) ++ ")"))
        else
          let (t, L3) := lua_tolstring H L2 (-1)
          if st.n < INT_MAX then
            .ok { st with L := lua_pop L3 1, n := st.n + 1, result := result ++ c_str t }
          else .error .undefined
      else
        if st.n < INT_MAX then
          .ok { st with L := lua_pop L2 1, n := st.n + 1,
                        result := result ++ slice sv (m.get 0).first (m.length 0) }
        else .error .undefined
  else
    let (t, L1) := lua_tolstring H st.L 3
    if st.n < INT_MAX then
      .ok { st with L := L1, n := st.n + 1, result := result ++ E.format sv m (c_str t) }
    else .error .undefined

/-- The loop of `gsub`: while `it != last && (!N || n < N)`, run the body, then
`last_it = it++`. -/
def gsub_loop (sv : Text) (N : Int) (repl : lua_Type) :
    Nat → gsub_state R W → Except Abort (gsub_state R W)
  | 0, _ => .error .out_of_fuel
  | fuel + 1, st =>
    if regex_iterator.eq sv st.it end_of_sequence = false ∧ (N = 0 ∨ st.n < N) then
      match gsub_body E H sv repl st with
      | .error e => .error e
      | .ok st1 =>
        match st1.it.incr E sv with
        | .error e => .error e
        | .ok it1 => gsub_loop sv N repl fuel { st1 with last_it := st1.it, it := it1 }
    else .ok st

/-- The `regex.gsub()` Lua function. -/
def gsub (fuel : Nat) (L : lua_State R W) : Except Abort (Nat × lua_State R W) :=
  match luaL_checkstring H L 1 with
  | .error e => .error e
  | .ok (s, L1) =>
    let sv := c_str s
    match get_regex E H L1 with
    | .error e => .error e
    | .ok (re, L2) =>
      if lua_isstring L2 3 = false ∧ lua_isfunction L2 3 = false ∧ lua_istable L2 3 = false
      then .error (.typeerror 3 "string/function/table")
      else
        match luaL_optinteger H L2 4 0 with
        | .error e => .error e
        | .ok N0 =>
          let N := to_int N0
          let repl := lua_type L2 3
          let it := regex_iterator.ctor E re sv 0 sv.length
          match gsub_loop E H sv N repl fuel ⟨L2, 0, [], it, it⟩ with
          | .error e => .error e
          | .ok st =>
            let result :=
              if regex_iterator.eq sv st.last_it st.it = false then
                st.result ++ slice sv st.last_it.mtch.sfx.first st.last_it.mtch.sfx.length
              else st.result
            let L3 := if st.n > 0 then lua_pushstring st.L result else lua_pushvalue st.L 1
            .ok (2, lua_pushinteger L3 st.n)

/-- The `regex.match()` Lua function. -/
def match_ (L : lua_State R W) : Except Abort (Nat × lua_State R W) :=
  match search E H L with
  | .error e => .error e
  | .ok (m, sv, L1) => .ok (push_results L1 sv m false)

/-- The values a C function returns: the top `n` values of its stack. -/
def returned (r : Nat × lua_State R W) : List LuaValue :=
  r.2.stack.drop (r.2.stack.length - r.1)

end lregex

/-! ## An engine for literal patterns

The concrete inputs below need an engine.  `literal_engine` handles the patterns made of
ordinary characters and non-nested groups, `ab(cd)e`: on these every regex engine finds
the leftmost occurrence of the characters, and group `i` is the part of the occurrence
the `i`-th parenthesis encloses. -/

/-- A compiled literal pattern: its pieces in order, each marked as a capture group or
not. -/
abbrev Pieces := List (Bool × Text)

/-- Parsing of a literal pattern; `cur` collects the piece being read. -/
def parse_pieces : Text → Bool → Text → Except String Pieces
  | [], in_group, cur =>
    if in_group then .error "missing )" else .ok (if cur = [] then [] else [(false, cur)])
  | c :: rest, in_group, cur =>
    if c = '(' then
      if in_group then .error "nested group"
      else
        match parse_pieces rest true [] with
        | .error e => .error e
        | .ok ps => .ok (if cur = [] then ps else (false, cur) :: ps)
    else if c = ')' then
      if in_group then
        match parse_pieces rest false [] with
        | .error e => .error e
        | .ok ps => .ok ((true, cur) :: ps)
      else .error "unexpected )"
    else parse_pieces rest in_group (cur ++ [c])

/-- The characters a literal pattern matches. -/
def pieces_text : Pieces → Text
  | [] => []
  | (_, t) :: ps => t ++ pieces_text ps

/-- The sub_matches of the groups for an occurrence that starts at offset `i`. -/
def captures_at : Pieces → Nat → List sub_match
  | [], _ => []
  | (true, t) :: ps, i => ⟨i, i + t.length, true⟩ :: captures_at ps (i + t.length)
  | (false, t) :: ps, i => captures_at ps (i + t.length)

/-- Leftmost occurrence of a literal pattern in `[first, last)`; only at `first` under
`match_continuous`, and no empty match under `match_not_null`. -/
def literal_search (ps : Pieces) (buf : Text) (first last : Nat) (flags : match_flags) :
    Option found :=
  let lit := pieces_text ps
  if flags.not_null = true ∧ lit.length = 0 then none
  else
    let cands := if flags.continuous = true then [first]
      else List.range' first (last + 1 - first)
    match cands.find? (fun i => decide (i + lit.length ≤ last ∧ slice buf i lit.length = lit))
    with
    | none => none
    | some i => some ⟨i, i + lit.length, captures_at ps i⟩

/-- The engine for literal patterns; a template without `$` stands for itself. -/
def literal_engine : Engine Pieces where
  compile := fun p => parse_pieces p false []
  search := literal_search
  format := fun _ _ fmt => fmt

/-- A host whose callbacks and tables answer by a fixed function of the arguments (of the
key); its world counts the calls.  Integers print in decimal. -/
def answering_host (answer : List LuaValue → LuaValue) : Host Nat where
  float_tointeger := fun _ => none
  string_tointeger := fun _ => none
  number_tostring := fun v =>
    match v with
    | .integer i => (toString i).toList
    | _ => []
  len := fun _ v => .error v
  call := fun w _ args => .ok ([answer args], w + 1)
  gettable := fun w _ key => .ok (answer [key], w + 1)

/-- The state a C function is entered with: its arguments on the stack. -/
def enter (args : List LuaValue) : lua_State Pieces Nat := ⟨args, 0, [], []⟩

/-- A string argument. -/
def str (s : String) : LuaValue := .string s.toList

/-- A host in which nothing is ever called: every callback and lookup answers nil. -/
def quiet_host : Host Nat := answering_host (fun _ => .nil)

/-! ## The offset policy of the specification -/

/-- The resolved offset as the specification words it: 0 for `I = 0`, `min(I, L+1) - 1`
for `I > 0`, and for `I < 0` the sum `J = I + L` when `0 < J < L`, else 0. -/
def resolved_offset (I L : Int) : Int :=
  if I = 0 then 0
  else if I > 0 then min I (L + 1) - 1
  else if 0 < I + L ∧ I + L < L then I + L else 0

/-- The text of slot `i` of a match: what `lua_pushlstring(L, m[i].first, m[i].length())`
pushes.  It is empty for a group that took no part in the match. -/
def slot_text (buf : Text) (m : match_results) (i : Nat) : Text :=
  slice buf (m.get i).first (m.get i).length

/-- The texts of the capture groups 1..k of a match, in group order. -/
def capture_texts (buf : Text) (m : match_results) (k : Nat) : List LuaValue :=
  (List.range' 1 k).map (fun i => LuaValue.string (slot_text buf m i))

/-- The state `L` with the values `vs` pushed, the last of them on top. -/
def pushes {R W : Type} (L : lua_State R W) (vs : List LuaValue) : lua_State R W :=
  { L with stack := L.stack ++ vs }

/-- The projection of a match with `only_subs = false` (section 4.3 of the
specification): nil for no match, the whole-match text when there are no sub-captures,
else the texts of the sub-captures. -/
def projection (buf : Text) (m : match_results) : List LuaValue :=
  if m.size = 0 then [.nil]
  else if m.size = 1 then [.string (slot_text buf m 0)]
  else capture_texts buf m (m.size - 1)

/-- The state `L` after a call into the host that left the world `w` and is recorded as
the event `ev`. -/
def after_host {R W : Type} (L : lua_State R W) (w : W) (ev : Event) : lua_State R W :=
  { L with world := w, events := L.events ++ [ev] }

/-- What the C++ standard promises of `regex_search`: a match lies inside the range that
was searched. -/
def Engine.sound {R : Type} (E : Engine R) : Prop :=
  ∀ re buf first last flags f, E.search re buf first last flags = some f →
    first ≤ f.first ∧ f.first ≤ f.second ∧ f.second ≤ last

/-- What the C++ standard promises of `match_not_null`: under that flag no empty match
is reported. -/
def Engine.honours_not_null {R : Type} (E : Engine R) : Prop :=
  ∀ re buf first last flags f, flags.not_null = true →
    E.search re buf first last flags = some f → f.first < f.second

/-- A bound on the number of increments an iterator at a match has left: twice the
distance from the end of its match to the end of the sequence, plus one when the match is
not empty. -/
def regex_iterator.remaining {R : Type} (it : regex_iterator R) : Nat :=
  2 * (it.end_ - (it.mtch.get 0).second)
    + (if (it.mtch.get 0).first < (it.mtch.get 0).second then 1 else 0)

/-- The shape of the match_results of an iterator that is at a match, in a sequence that
ends at `e`: slot 0 is matched, the prefix ends where slot 0 begins, the suffix runs
from the end of slot 0 to `e`. -/
def match_results.wf (m : match_results) (e : Nat) : Prop :=
  ∃ a b caps, m.subs = ⟨a, b, true⟩ :: caps ∧ m.pfx = ⟨m.pfx.first, a, m.pfx.first != a⟩
    ∧ m.pfx.first ≤ a ∧ a ≤ b ∧ b ≤ e ∧ m.sfx = ⟨b, e, b != e⟩

/-- The matches of an iteration: `iter_seq E buf it its` says that `its` are the states
the iterator `it` goes through, from `it` itself to the last one before end-of-sequence. -/
def iter_seq {R : Type} (E : Engine R) (buf : Text) :
    regex_iterator R → List (regex_iterator R) → Prop
  | it, [] => it.pregex = none
  | it, x :: xs => x = it ∧ it.pregex ≠ none ∧
    match it.incr E buf with
    | .ok it1 => iter_seq E buf it1 xs
    | .error _ => False

/-- The number of further matches the loop of `gsub` processes when its limit is `N`
(as an `int`), `n` matches are already counted and `T` matches are left: all of them
without a limit, else as many as the limit still allows. -/
def quota (N n : Int) (T : Nat) : Nat := if N = 0 then T else min (N - n).toNat T

/-- One call into the host for each processed match when the replacement is a table or a
function, none for a template. -/
def calls_for (ty : lua_Type) (k : Nat) : Nat :=
  if ty = .TTABLE ∨ ty = .TFUNCTION then k else 0

/-- One turn of Lua's generic `for`: the advance function returned by `regex.gmatch` is
called with the generator state and the control value as its arguments. -/
def advance {R W : Type} [DecidableEq R] (E : Engine R) (L : lua_State R W)
    (state ctl : LuaValue) : Except Abort (Nat × lua_State R W) :=
  generator E { L with stack := [state, ctl] }

/-- The state and the control value after `i` turns of the generic `for`: the control
value of a turn is the first value the turn before returned. -/
def advance_n {R W : Type} [DecidableEq R] (E : Engine R) :
    Nat → lua_State R W → LuaValue → LuaValue → Except Abort (lua_State R W × LuaValue)
  | 0, L, _, ctl => .ok (L, ctl)
  | i + 1, L, state, ctl =>
    match advance E L state ctl with
    | .error e => .error e
    | .ok r => advance_n E i r.2 state ((returned r).headD .nil)

/-- The state a C function returned with (`dflt` if it raised an error). -/
def state_of {R W : Type} (r : Except Abort (Nat × lua_State R W)) (dflt : lua_State R W) :
    lua_State R W :=
  match r with
  | .ok x => x.2
  | .error _ => dflt

/-- Deciding the step of `iter_seq` from a decision procedure for the rest. -/
def iter_seq_step_dec {R : Type} (E : Engine R) (buf : Text)
    (r : Except Abort (regex_iterator R)) (xs : List (regex_iterator R))
    (ih : ∀ it1, Decidable (iter_seq E buf it1 xs)) :
    Decidable (match r with
      | .ok it1 => iter_seq E buf it1 xs
      | .error _ => False) :=
  match r with
  | .ok it1 => ih it1
  | .error _ => isFalse (fun h => h)

/-- Whether a list of iterator states is the sequence of matches can be computed. -/
def iter_seq_dec {R : Type} [DecidableEq R] (E : Engine R) (buf : Text) :
    (it : regex_iterator R) → (its : List (regex_iterator R)) → Decidable (iter_seq E buf it its)
  | it, [] => inferInstanceAs (Decidable (it.pregex = none))
  | it, x :: xs =>
    @instDecidableAnd _ _ (inferInstanceAs (Decidable (x = it)))
      (@instDecidableAnd _ _ (inferInstanceAs (Decidable (it.pregex ≠ none)))
        (iter_seq_step_dec E buf (it.incr E buf) xs (fun it1 => iter_seq_dec E buf it1 xs)))

instance {R : Type} [DecidableEq R] (E : Engine R) (buf : Text) (it : regex_iterator R)
    (its : List (regex_iterator R)) : Decidable (iter_seq E buf it its) :=
  iter_seq_dec E buf it its

/-- The states an iterator goes through before end-of-sequence, computed with at most
`fuel` increments. -/
def matches_of {R : Type} (E : Engine R) (buf : Text) :
    Nat → regex_iterator R → List (regex_iterator R)
  | 0, _ => []
  | fuel + 1, it =>
    if it.pregex.isNone then []
    else
      match it.incr E buf with
      | .ok it1 => it :: matches_of E buf fuel it1
      | .error _ => [it]

/-- The values `regex.find` returns when it searches the view `sv` of its subject from the
offset `o` with the regex `re`: nil when nothing is found, else the two positions and the
texts of the capture groups. -/
def find_values {R : Type} (E : Engine R) (re : R) (sv : Text) (o : Int) : List LuaValue :=
  let m := regex_search E re sv o.toNat sv.length match_default
  if m.size = 0 then [.nil]
  else [.integer (o + m.position 0 + 1), .integer (o + m.position 0 + m.length 0)]
    ++ capture_texts sv m (m.size - 1)

/-- The key `gsub` looks up in a table replacement for the match `m`, in the words of
the specification: the text of the first capture group when the pattern has capture
groups (`m` has more than one slot), the whole-match text when it has none. -/
def lookup_key (buf : Text) (m : match_results) : LuaValue :=
  .string (slot_text buf m (if m.size ≤ 1 then 0 else 1))

/-- The answer a callback or a lookup gives for the match `m` when the world is `w`: the
table indexed with the first value of the projection of `m`, or the first result of the
callback called with the projection (nil when it returns nothing); with the world the
host leaves, or the error it raises. -/
def host_answer {W : Type} (H : Host W) (repl : LuaValue) (buf : Text)
    (m : match_results) (w : W) : Except LuaValue (LuaValue × W) :=
  if repl.type = .TTABLE then H.gettable w repl ((projection buf m).headD .nil)
  else
    match H.call w repl (projection buf m) with
    | .error e => .error e
    | .ok (rs, w1) => .ok (rs.headD .nil, w1)

/-- The record of the request `host_answer` stands for. -/
def host_event (repl : LuaValue) (buf : Text) (m : match_results) : Event :=
  if repl.type = .TTABLE then .gettable repl ((projection buf m).headD .nil)
  else .call repl (projection buf m)

/-- Whether, asked for the matches `ms` in order from the world `w`, the callback or
lookup `repl` gives some match an answer that is truthy and not text-like; nothing is
asked after such an answer or after an error of the host. -/
def rejects {W : Type} (H : Host W) (repl : LuaValue) (buf : Text) :
    W → List match_results → Bool
  | _, [] => false
  | w, m :: ms =>
    match host_answer H repl buf m w with
    | .error _ => false
    | .ok (v, w1) => if v.truthy && !v.isstring then true else rejects H repl buf w1 ms

/-- Whether `gsub` takes the value at the index of its replacement argument: a string or
a number (`lua_isstring`), a function or a table. -/
def replacement_accepted (v : Option LuaValue) : Bool :=
  match v with
  | none => false
  | some v =>
    decide (v.type = .TSTRING ∨ v.type = .TNUMBER ∨ v.type = .TFUNCTION ∨ v.type = .TTABLE)

/-- The number of matches `gsub` processes, of `T` matches, for the limit `k`: the first
`min(k, T)` for `k > 0`, all of them for `k = 0` (also the value of an omitted limit),
none for `k < 0`. -/
def processed (k : Int) (T : Nat) : Nat :=
  if k > 0 then min k.toNat T else if k = 0 then T else 0

/-! ## Theorems -/

section get_init_facts

variable {R W : Type} (H : Host W)

theorem to_int_of_range {x : Int} (h1 : INT_MIN ≤ x) (h2 : x ≤ INT_MAX) : to_int x = x := by
  unfold to_int
  unfold INT_MIN at h1
  unfold INT_MAX at h2
  omega

theorem to_int_bounds (x : Int) : INT_MIN ≤ to_int x ∧ to_int x ≤ INT_MAX := by
  unfold to_int INT_MIN INT_MAX
  omega

/-- Within the range of `int` the code follows the offset policy: for a start `I` and a
subject of `L` bytes that both fit an `int`, `get_init` returns the resolved offset. -/
theorem get_init_in_range (L : lua_State R W) (s : Text) (I : Int)
    (h1 : index2value L 1 = some (.string s))
    (h3 : index2value L 3 = some (.integer I))
    (hI : INT_MIN ≤ I ∧ I ≤ INT_MAX) (hs : (s.length : Int) ≤ INT_MAX) :
    get_init H L = .ok (resolved_offset I s.length) := by
  have hlen : to_int (s.length : Int) = s.length :=
    to_int_of_range (by unfold INT_MIN; omega) hs
  have hi : to_int I = I := to_int_of_range hI.1 hI.2
  have h3n : index2value L ((3 : Nat) : Int) = some (.integer I) := h3
  have h1n : index2value L ((1 : Nat) : Int) = some (.string s) := h1
  simp only [get_init, luaL_optinteger, luaL_len, h3n, h1n, lua_tointegerx, hlen, hi]
  unfold resolved_offset
  unfold INT_MIN at *
  unfold INT_MAX at *
  rcases lt_trichotomy I 0 with h | h | h
  · have e1 : ¬ I > 0 := by omega
    have e2 : ¬ (I < 0 ∧ I + (s.length : Int) < -2147483648) := by omega
    have e3 : ¬ I = 0 := by omega
    simp only [e1, e2, e3, h, if_true, if_false]
    split_ifs <;> first | rfl | omega
  · subst h
    simp
  · have e1 : I > 0 := h
    have e3 : ¬ I = 0 := by omega
    simp only [e1, e3, if_true, if_false]
    refine congrArg Except.ok ?_
    split_ifs <;> omega

/-- An omitted start is the start 1. -/
theorem get_init_omitted (L : lua_State R W) (s : Text)
    (h1 : index2value L 1 = some (.string s)) (h3 : index2value L 3 = none)
    (hs : (s.length : Int) ≤ INT_MAX) :
    get_init H L = .ok (resolved_offset 1 s.length) := by
  have hlen : to_int (s.length : Int) = s.length :=
    to_int_of_range (by unfold INT_MIN; omega) hs
  have h3n : index2value L ((3 : Nat) : Int) = none := h3
  have h1n : index2value L ((1 : Nat) : Int) = some (.string s) := h1
  simp only [get_init, luaL_optinteger, luaL_len, h3n, h1n, hlen]
  unfold resolved_offset
  have e : to_int 1 = 1 := by decide
  rw [e]
  simp only [gt_iff_lt, zero_lt_one, if_true, one_ne_zero, if_false]
  refine congrArg Except.ok ?_
  split_ifs <;> omega

end get_init_facts

section stack_facts

variable {R W : Type}

theorem pushes_nil (L : lua_State R W) : pushes L [] = L := by
  simp [pushes]

theorem pushes_pushes (L : lua_State R W) (xs ys : List LuaValue) :
    pushes (pushes L xs) ys = pushes L (xs ++ ys) := by
  simp [pushes]

theorem push_eq_pushes (L : lua_State R W) (v : LuaValue) : push L v = pushes L [v] := rfl

theorem returned_pushes (L : lua_State R W) (vs : List LuaValue) :
    returned (vs.length, pushes L vs) = vs := by
  simp [returned, pushes]

theorem returned_two (L : lua_State R W) (v : LuaValue) (n : Int) :
    returned (2, lua_pushinteger (push L v) n) = [v, .integer n] := by
  simp [returned, lua_pushinteger, push]

/-- The loop of `push_results` pushes the texts of the slots it runs over, in order. -/
theorem foldl_pushlstring (buf : Text) (m : match_results) (xs : List Nat)
    (L : lua_State R W) :
    xs.foldl (fun L i => lua_pushlstring L buf (m.get i).first (m.get i).length) L
      = pushes L (xs.map (fun i => LuaValue.string (slot_text buf m i))) := by
  induction xs generalizing L with
  | nil => simp [pushes]
  | cons x xs ih =>
    simp only [List.foldl_cons, List.map_cons, ih]
    simp [lua_pushlstring, push, pushes, slot_text]

/-- The `lua_insert(L, -n - 1)` moves the top value below the `n` values under it. -/
theorem lua_insert_below (L : lua_State R W) (below mid : List LuaValue) (t : LuaValue)
    (h : L.stack = below ++ mid ++ [t]) :
    lua_insert L (-(mid.length : Int) - 1) = { L with stack := below ++ t :: mid } := by
  have hp : (lua_absindex L (-(mid.length : Int) - 1) - 1).toNat = below.length := by
    unfold lua_absindex
    have : ¬ (-(mid.length : Int) - 1 > 0) := by omega
    simp only [this, if_false, h, List.length_append, List.length_singleton]
    push_cast
    omega
  unfold lua_insert
  simp only [hp]
  simp [h, List.dropLast_concat]

/-- Index -1 is the top of the stack. -/
theorem index2value_top (L : lua_State R W) : index2value L (-1) = L.stack.getLast? := by
  unfold index2value lua_absindex
  simp only [show ¬ ((-1 : Int) > 0) by omega, if_false]
  rw [List.getLast?_eq_getElem?]
  by_cases h : L.stack.length = 0
  · have : L.stack = [] := List.length_eq_zero.mp h
    simp [this]
  · have h1 : (L.stack.length : Int) + -1 + 1 ≥ 1 := by omega
    have h2 : ((L.stack.length : Int) + -1 + 1 - 1).toNat = L.stack.length - 1 := by omega
    simp only [h1, if_true, h2, List.get?_eq_getElem?]

theorem lua_isnil_pushes_string (L : lua_State R W) (vs : List LuaValue) (t : Text) :
    lua_isnil (pushes L (vs ++ [.string t])) (-1) = false := by
  have : (L.stack ++ (vs ++ [LuaValue.string t])).getLast? = some (.string t) := by
    rw [← List.append_assoc, List.getLast?_concat]
  simp [lua_isnil, lua_type, index2value_top, pushes, LuaValue.type, this]

end stack_facts

section push_results_facts

variable {R W : Type}

theorem push_results_no_match (L : lua_State R W) (buf : Text) (m : match_results)
    (b : Bool) (h : m.size = 0) : push_results L buf m b = (1, pushes L [.nil]) := by
  simp [push_results, h, lua_pushnil, push, pushes]

theorem push_results_whole (L : lua_State R W) (buf : Text) (m : match_results)
    (h : m.size = 1) :
    push_results L buf m false = (1, pushes L [.string (slot_text buf m 0)]) := by
  simp [push_results, h, lua_pushlstring, push, pushes, slot_text]

theorem push_results_only_subs_none (L : lua_State R W) (buf : Text) (m : match_results)
    (h : m.size = 1) : push_results L buf m true = (0, L) := by
  simp [push_results, h, luaL_checkstack]

theorem push_results_captures (L : lua_State R W) (buf : Text) (m : match_results)
    (b : Bool) (k : Nat) (hk : 1 ≤ k) (h : m.size = k + 1) :
    push_results L buf m b = (k, pushes L (capture_texts buf m k)) := by
  have h0 : ¬ (k + 1 = 0) := by omega
  have h1 : ¬ (k + 1 = 1) := by omega
  simp only [push_results, h, h0, h1, if_false, false_and, luaL_checkstack,
    Nat.add_sub_cancel, foldl_pushlstring, capture_texts]

end push_results_facts

section frame_facts

variable {R W : Type} (H : Host W)

/-- A positive index counts from the bottom of the frame. -/
theorem index2value_pos (L : lua_State R W) (i : Nat) (h : 1 ≤ i) :
    index2value L (i : Int) = L.stack.get? (i - 1) := by
  unfold index2value lua_absindex
  have h1 : (i : Int) > 0 := by omega
  have h2 : (i : Int) ≥ 1 := by omega
  have h3 : ((i : Int) - 1).toNat = i - 1 := by omega
  simp only [h1, if_true, h2, h3]

/-- What `luaL_checkstring` leaves of the state: all but the slot of the argument. -/
theorem luaL_checkstring_frame (L L1 : lua_State R W) (arg : Nat) (s : Text)
    (h : luaL_checkstring H L arg = .ok (s, L1)) :
    L1.world = L.world ∧ L1.heap = L.heap ∧ L1.events = L.events
    ∧ ∀ j, j ≠ arg - 1 → L1.stack.get? j = L.stack.get? j := by
  unfold luaL_checkstring at h
  split at h
  · cases h
    exact ⟨rfl, rfl, rfl, fun _ _ => rfl⟩
  · cases h
    refine ⟨rfl, rfl, rfl, fun j hj => ?_⟩
    simp [List.getElem?_set_ne (Ne.symm hj)]
  · cases h
    refine ⟨rfl, rfl, rfl, fun j hj => ?_⟩
    simp [List.getElem?_set_ne (Ne.symm hj)]
  · cases h

/-- The offset `get_init` returns depends on the first and third stack slots and on the
world only. -/
theorem get_init_congr (L L1 : lua_State R W) (hw : L1.world = L.world)
    (h0 : L1.stack.get? 0 = L.stack.get? 0) (h2 : L1.stack.get? 2 = L.stack.get? 2) :
    get_init H L1 = get_init H L := by
  have e3 : index2value L1 ((3 : Nat) : Int) = index2value L ((3 : Nat) : Int) := by
    rw [index2value_pos L1 3 (by omega), index2value_pos L 3 (by omega)]
    exact h2
  have e1 : index2value L1 ((1 : Nat) : Int) = index2value L ((1 : Nat) : Int) := by
    rw [index2value_pos L1 1 (by omega), index2value_pos L 1 (by omega)]
    exact h0
  simp only [get_init, luaL_optinteger, luaL_len, e3, e1, hw]

end frame_facts

section search_facts

variable {R W : Type} (E : Engine R) (H : Host W)

theorem get_regex_frame (L L1 : lua_State R W) (re : R)
    (h : get_regex E H L = .ok (re, L1)) :
    L1.world = L.world ∧ L1.heap = L.heap ∧ L1.events = L.events
    ∧ ∀ j, j ≠ 1 → L1.stack.get? j = L.stack.get? j := by
  unfold get_regex at h
  split at h
  · cases h
  · rename_i p L0 hc
    split at h
    · cases h
      exact luaL_checkstring_frame H L L1 2 p hc
    · cases h

/-- What a successful `search` did: it read the subject, resolved the offset (the same
one `find` reads again afterwards), compiled the pattern, and searched the view of the
subject from the offset to its end. -/
theorem search_ok_elim (L L1 : lua_State R W) (m : match_results) (sv : Text)
    (h : search E H L = .ok (m, sv, L1)) :
    ∃ s L0 re init, luaL_checkstring H L 1 = .ok (s, L0) ∧ sv = c_str s
      ∧ get_regex E H L0 = .ok (re, L1) ∧ get_init H L1 = .ok init
      ∧ 0 ≤ init ∧ init ≤ (sv.length : Int)
      ∧ m = regex_search E re sv init.toNat sv.length match_default := by
  unfold search at h
  split at h
  · cases h
  · rename_i s L0 hc
    simp only at h
    split at h
    · cases h
    · rename_i init hi
      split at h
      · cases h
      · rename_i re L2 hr
        split at h
        · cases h
        · rename_i hrange
          cases h
          have hf := get_regex_frame E H L0 L1 re hr
          have hg : get_init H L1 = get_init H L0 :=
            get_init_congr H L0 L1 hf.1 (hf.2.2.2 0 (by omega)) (hf.2.2.2 2 (by omega))
          refine ⟨s, L0, re, init, hc, rfl, hr, by rw [hg, hi], ?_, ?_, rfl⟩ <;> omega

/-- After `get_regex` every argument but the pattern is as before. -/
theorem get_regex_index (L L1 : lua_State R W) (re : R) (h : get_regex E H L = .ok (re, L1))
    (i : Nat) (hi : 1 ≤ i) (h2 : i ≠ 2) : index2value L1 (i : Int) = index2value L (i : Int) := by
  rw [index2value_pos L1 i hi, index2value_pos L i hi]
  exact (get_regex_frame E H L L1 re h).2.2.2 (i - 1) (by omega)

theorem luaL_checkstring_string (L : lua_State R W) (arg : Nat) (s : Text)
    (h : index2value L (arg : Int) = some (.string s)) :
    luaL_checkstring H L arg = .ok (s, L) := by
  simp only [luaL_checkstring, h]

theorem ctor_no_match (re : R) (buf : Text) (a b : Nat)
    (h : E.search re buf a b match_default = none) :
    regex_iterator.ctor E re buf a b = end_of_sequence := by
  simp [regex_iterator.ctor, regex_search, h, match_results.size]

end search_facts

section claims_search

variable {R W : Type} (E : Engine R) (H : Host W)

/-- C4: when the search from the resolved offset `o` finds a match with `k` capture
groups whose whole match begins `p` characters after `o` and has length `n`, `find`
returns exactly `2 + k` values: the start position `o + p + 1`, the end position
`o + p + n` (which is start + n - 1), then the texts of the groups 1..k in group order;
slot 0, the whole match, is not among them. -/
theorem C4_find_positions_then_captures (L L1 : lua_State R W) (m : match_results)
    (sv : Text) (o p : Int) (n k : Nat)
    (hs : search E H L = .ok (m, sv, L1)) (ho : get_init H L1 = .ok o)
    (hk : m.size = k + 1) (hp : m.position 0 = p) (hn : m.length 0 = n) :
    find E H L = .ok (2 + k, pushes L1
      ([.integer (o + p + 1), .integer (o + p + n)] ++ capture_texts sv m k))
    ∧ returned (2 + k, pushes L1
      ([.integer (o + p + 1), .integer (o + p + n)] ++ capture_texts sv m k))
      = [.integer (o + p + 1), .integer (o + p + n)] ++ capture_texts sv m k
    ∧ (capture_texts sv m k).length = k
    ∧ o + p + n = (o + p + 1) + n - 1 := by
  have hlen : (capture_texts sv m k).length = k := by simp [capture_texts]
  refine ⟨?_, ?_, hlen, by omega⟩
  · have hpr : push_results L1 sv m true = (k, pushes L1 (capture_texts sv m k)) := by
      rcases Nat.eq_zero_or_pos k with h0 | h1
      · subst h0
        rw [push_results_only_subs_none L1 sv m hk]
        simp [capture_texts, pushes]
      · exact push_results_captures L1 sv m true k h1 hk
    have hnil : ¬ (k = 1 ∧ lua_isnil (pushes L1 (capture_texts sv m k)) (-1) = true) := by
      rintro ⟨h1, h2⟩
      subst h1
      have : capture_texts sv m 1 = [] ++ [.string (slot_text sv m 1)] := by
        simp [capture_texts]
      rw [this, lua_isnil_pushes_string] at h2
      cases h2
    have hst1 : (lua_pushinteger (pushes L1 (capture_texts sv m k)) (o + p + 1)).stack
        = L1.stack ++ capture_texts sv m k ++ [.integer (o + p + 1)] := by
      simp [lua_pushinteger, push, pushes]
    have hi1 := lua_insert_below _ _ _ _ hst1
    rw [hlen] at hi1
    have hst2 : (lua_pushinteger ({ lua_pushinteger (pushes L1 (capture_texts sv m k))
          (o + p + 1) with stack := L1.stack ++ .integer (o + p + 1) :: capture_texts sv m k }
          : lua_State R W) (o + p + n)).stack
        = (L1.stack ++ [.integer (o + p + 1)]) ++ capture_texts sv m k
          ++ [.integer (o + p + n)] := by
      simp [lua_pushinteger, push]
    have hi2 := lua_insert_below _ _ _ _ hst2
    rw [hlen] at hi2
    simp only [find, hs, ho, hpr, hnil, if_false, hp, hn, hi1, hi2]
    simp [pushes, lua_pushinteger, push]
  · have h2 : 2 + k
        = ([LuaValue.integer (o + p + 1), .integer (o + p + n)] ++ capture_texts sv m k).length := by
      simp [hlen]
      omega
    rw [h2]
    exact returned_pushes L1 _

/-- C6: when the pattern has `k ≥ 1` capture groups and matches, `match` returns exactly
`k` values, the `i`-th being the text of group `i` (empty for a group that took no part
in the match); slot 0, the whole match, is not among them. -/
theorem C6_match_returns_only_captures (L L1 : lua_State R W) (m : match_results)
    (sv : Text) (k : Nat)
    (hs : search E H L = .ok (m, sv, L1)) (hk : m.size = k + 1) (h1 : 1 ≤ k) :
    match_ E H L = .ok (k, pushes L1 (capture_texts sv m k))
    ∧ returned (k, pushes L1 (capture_texts sv m k)) = capture_texts sv m k
    ∧ (capture_texts sv m k).length = k
    ∧ (∀ i, i < k → (capture_texts sv m k).get? i = some (.string (slot_text sv m (i + 1))))
    ∧ (∀ i, (m.get i).matched = false → slot_text sv m i = []) := by
  have hlen : (capture_texts sv m k).length = k := by simp [capture_texts]
  refine ⟨?_, ?_, hlen, ?_, ?_⟩
  · simp only [match_, hs, push_results_captures L1 sv m false k h1 hk]
  · have := returned_pushes L1 (capture_texts sv m k)
    simpa [hlen] using this
  · intro i hi
    simp [capture_texts, List.getElem?_range' , hi, Nat.add_comm]
  · intro i hi
    simp [slot_text, sub_match.length, hi, slice]

/-- C7: when the search from the resolved offset finds no match, `find` and `match` each
return exactly one value, nil; `find` pushes no position. -/
theorem C7_no_match_returns_nil (L L1 : lua_State R W) (m : match_results) (sv : Text)
    (hs : search E H L = .ok (m, sv, L1)) (hm : m.size = 0) :
    find E H L = .ok (1, pushes L1 [.nil]) ∧ match_ E H L = .ok (1, pushes L1 [.nil])
    ∧ returned (1, pushes L1 [.nil]) = [.nil] := by
  obtain ⟨s, L0, re, init, -, -, -, hi, -⟩ := search_ok_elim E H L L1 m sv hs
  have hnil : lua_isnil (pushes L1 [.nil]) (-1) = true := by
    simp [lua_isnil, lua_type, index2value_top, pushes, LuaValue.type]
  refine ⟨?_, ?_, ?_⟩
  · simp only [find, hs, hi, push_results_no_match L1 sv m true hm, hnil, and_self, if_true]
  · simp only [match_, hs, push_results_no_match L1 sv m false hm]
  · exact returned_pushes L1 [.nil]

end claims_search

/-- C5: for a match `m` with `k` sub-captures (`m.size() = k + 1`), `push_results` pushes
the whole-match text as the sole value when `k = 0` and `only_subs` is false, nothing
when `k = 0` and `only_subs` is true, and the texts of slots 1..k in order, without
slot 0, when `k ≥ 1` whatever `only_subs` is; the count it returns is the number of
values it pushed. -/
theorem C5_push_results_projection {R W : Type} (L : lua_State R W) (buf : Text)
    (m : match_results) (only_subs : Bool) (k : Nat) (hm : m.size = k + 1) :
    (k = 0 → only_subs = false →
      push_results L buf m only_subs = (1, pushes L [.string (slot_text buf m 0)]))
    ∧ (k = 0 → only_subs = true → push_results L buf m only_subs = (0, pushes L []))
    ∧ (1 ≤ k → push_results L buf m only_subs = (k, pushes L (capture_texts buf m k)))
    ∧ (capture_texts buf m k).length = k
    ∧ (push_results L buf m only_subs).2.stack.length
        = L.stack.length + (push_results L buf m only_subs).1 := by
  have hlen : (capture_texts buf m k).length = k := by simp [capture_texts]
  have c1 : k = 0 → only_subs = false →
      push_results L buf m only_subs = (1, pushes L [.string (slot_text buf m 0)]) := by
    intro h0 hb
    subst h0 hb
    exact push_results_whole L buf m hm
  have c2 : k = 0 → only_subs = true → push_results L buf m only_subs = (0, pushes L []) := by
    intro h0 hb
    subst h0 hb
    rw [pushes_nil]
    exact push_results_only_subs_none L buf m hm
  have c3 : 1 ≤ k → push_results L buf m only_subs = (k, pushes L (capture_texts buf m k)) :=
    fun h1 => push_results_captures L buf m only_subs k h1 hm
  refine ⟨c1, c2, c3, hlen, ?_⟩
  rcases Nat.eq_zero_or_pos k with h0 | h1
  · cases only_subs
    · rw [c1 h0 rfl]
      simp [pushes]
    · rw [c2 h0 rfl]
      simp [pushes]
  · rw [c3 h1]
    simp [pushes, hlen]

/-- The call `regex.find("hello world", "w(or)l", -6)`: the search starts at offset 5 and
finds "worl" one character later; the answer is 7, 10, "or". -/
theorem C4_find_witness :
    find literal_engine quiet_host (enter [str "hello world", str "w(or)l", .integer (-6)])
      = .ok (3, pushes (enter [str "hello world", str "w(or)l", .integer (-6)])
          [.integer 7, .integer 10, str "or"]) :=
  (C4_find_positions_then_captures literal_engine quiet_host
    (enter [str "hello world", str "w(or)l", .integer (-6)])
    (enter [str "hello world", str "w(or)l", .integer (-6)])
    (regex_search literal_engine [(false, "w".toList), (true, "or".toList), (false, "l".toList)]
      "hello world".toList 5 11 match_default)
    "hello world".toList 5 1 4 1 rfl rfl rfl rfl rfl).1

/-- The scenario `locate("hello world", "wor")` of the specification: 7, 9 and no
capture. -/
theorem find_hello_world :
    (find literal_engine quiet_host (enter [str "hello world", str "wor"])).map returned
      = .ok [.integer 7, .integer 9] := rfl

/-- A match of "(el)(l)" in "hello", projected both ways: the two captures. -/
theorem C5_push_results_witness :
    push_results (enter []) "hello".toList
        ⟨[⟨1, 4, true⟩, ⟨1, 3, true⟩, ⟨3, 4, true⟩], ⟨0, 1, true⟩, ⟨4, 5, true⟩, 0⟩ true
      = (2, pushes (enter []) [str "el", str "l"]) :=
  (C5_push_results_projection (enter []) "hello".toList
    ⟨[⟨1, 4, true⟩, ⟨1, 3, true⟩, ⟨3, 4, true⟩], ⟨0, 1, true⟩, ⟨4, 5, true⟩, 0⟩ true 2
    rfl).2.2.1 (by decide)

/-- The scenario `match("2023-10-05", "(2023)-(10)-(05)")`: the three captures. -/
theorem C6_match_witness :
    match_ literal_engine quiet_host (enter [str "2023-10-05", str "(2023)-(10)-(05)"])
      = .ok (3, pushes (enter [str "2023-10-05", str "(2023)-(10)-(05)"])
          [str "2023", str "10", str "05"]) :=
  (C6_match_returns_only_captures literal_engine quiet_host
    (enter [str "2023-10-05", str "(2023)-(10)-(05)"])
    (enter [str "2023-10-05", str "(2023)-(10)-(05)"])
    (regex_search literal_engine
      [(true, "2023".toList), (false, "-".toList), (true, "10".toList), (false, "-".toList),
       (true, "05".toList)]
      "2023-10-05".toList 0 10 match_default)
    "2023-10-05".toList 3 rfl rfl (by decide)).1

/-- The scenario `match("hello world", "o")` of the specification: the whole match. -/
theorem match_hello_world :
    (match_ literal_engine quiet_host (enter [str "hello world", str "o"])).map returned
      = .ok [str "o"] := rfl

/-- No "z" in "no match": both `find` and `match` answer nil. -/
theorem C7_no_match_witness :
    find literal_engine quiet_host (enter [str "no match", str "z"])
      = .ok (1, pushes (enter [str "no match", str "z"]) [.nil])
    ∧ match_ literal_engine quiet_host (enter [str "no match", str "z"])
      = .ok (1, pushes (enter [str "no match", str "z"]) [.nil]) :=
  have h := C7_no_match_returns_nil literal_engine quiet_host
    (enter [str "no match", str "z"]) (enter [str "no match", str "z"])
    (regex_search literal_engine [(false, "z".toList)] "no match".toList 0 8 match_default)
    "no match".toList rfl rfl
  ⟨h.1, h.2.1⟩

section iterator_facts

variable {R : Type} (E : Engine R)

theorem regex_search_wf (hs : E.sound) (re : R) (buf : Text) (first last : Nat)
    (flags : match_flags) (h : (regex_search E re buf first last flags).size ≠ 0) :
    (regex_search E re buf first last flags).wf last
    ∧ (regex_search E re buf first last flags).pfx.first = first := by
  unfold regex_search at h ⊢
  cases hf : E.search re buf first last flags with
  | none => simp [hf, match_results.size] at h
  | some f =>
    obtain ⟨h1, h2, h3⟩ := hs re buf first last flags f hf
    exact ⟨⟨f.first, f.second, f.captures, rfl, rfl, h1, h2, h3, rfl⟩, rfl⟩

theorem adjust_wf (m : match_results) (e pf b : Nat) (h : m.wf e) (hp : pf ≤ m.pfx.first) :
    (adjust m pf b).wf e ∧ (adjust m pf b).pfx.first = pf := by
  obtain ⟨a, c, caps, h1, h2, h3, h4, h5, h6⟩ := h
  have hsec : m.pfx.second = a := by rw [h2]
  refine ⟨⟨a, c, caps, h1, ?_, ?_, h4, h5, h6⟩, rfl⟩
  · simp [adjust, hsec]
  · simp only [adjust]
    omega

theorem wf_get_zero (m : match_results) (e : Nat) (h : m.wf e) :
    (m.get 0).matched = true ∧ (m.get 0).first = m.pfx.second
    ∧ (m.get 0).second = m.sfx.first ∧ m.pfx.first ≤ (m.get 0).first
    ∧ (m.get 0).first ≤ (m.get 0).second ∧ (m.get 0).second ≤ e ∧ m.sfx.second = e
    ∧ m.size ≠ 0 := by
  obtain ⟨a, c, caps, h1, h2, h3, h4, h5, h6⟩ := h
  have hsec : m.pfx.second = a := by rw [h2]
  simp [match_results.get, match_results.size, h1, hsec, h6, h3, h4, h5]

/-- One increment of an iterator that is at a well-formed match: it succeeds, and the
iterator is then at end-of-sequence or at a well-formed match whose prefix starts where
the match before ended. -/
theorem incr_wf (hs : E.sound) (buf : Text) (it : regex_iterator R) (re : R)
    (hre : it.pregex = some re) (hw : it.mtch.wf it.end_) :
    ∃ it1, it.incr E buf = .ok it1 ∧
      (it1.pregex = none ∨
        (it1.pregex = some re ∧ it1.end_ = it.end_ ∧ it1.begin_ = it.begin_
          ∧ it1.mtch.wf it.end_ ∧ it1.mtch.pfx.first = (it.mtch.get 0).second)) := by
  obtain ⟨-, -, -, -, h12, h2e, -, -⟩ := wf_get_zero it.mtch it.end_ hw
  have key : ∀ start, (it.mtch.get 0).second ≤ start →
      ((it.search_on E buf re start (it.mtch.get 0).second).pregex = none ∨
        ((it.search_on E buf re start (it.mtch.get 0).second).pregex = some re
          ∧ (it.search_on E buf re start (it.mtch.get 0).second).end_ = it.end_
          ∧ (it.search_on E buf re start (it.mtch.get 0).second).begin_ = it.begin_
          ∧ (it.search_on E buf re start (it.mtch.get 0).second).mtch.wf it.end_
          ∧ (it.search_on E buf re start (it.mtch.get 0).second).mtch.pfx.first
              = (it.mtch.get 0).second)) := by
    intro start hst
    unfold regex_iterator.search_on
    simp only
    split
    · left; rfl
    · rename_i hsz
      right
      obtain ⟨w1, w2⟩ := regex_search_wf E hs re buf start it.end_ _ hsz
      obtain ⟨a1, a2⟩ := adjust_wf _ it.end_ (it.mtch.get 0).second it.begin_ w1
        (by rw [w2]; exact hst)
      exact ⟨hre, rfl, rfl, a1, a2⟩
  unfold regex_iterator.incr
  simp only [hre]
  split
  · split
    · exact ⟨_, rfl, Or.inl rfl⟩
    · split
      · exact ⟨_, rfl, key _ (by omega)⟩
      · rename_i hsz
        refine ⟨_, rfl, Or.inr ?_⟩
        obtain ⟨w1, w2⟩ := regex_search_wf E hs re buf (it.mtch.get 0).second it.end_ _ hsz
        obtain ⟨a1, a2⟩ := adjust_wf _ it.end_ (it.mtch.get 0).second it.begin_ w1
          (by rw [w2])
        exact ⟨rfl, rfl, rfl, a1, a2⟩
  · exact ⟨_, rfl, key _ (le_refl _)⟩

theorem adjust_get (m : match_results) (pf b i : Nat) : (adjust m pf b).get i = m.get i := rfl

/-- A search either fails, leaving an empty match_results, or reports a match inside the
range, which becomes slot 0. -/
theorem regex_search_cases (hs : E.sound) (re : R) (buf : Text) (first last : Nat)
    (flags : match_flags) :
    (regex_search E re buf first last flags).size = 0 ∨
      ∃ f, E.search re buf first last flags = some f
        ∧ (regex_search E re buf first last flags).size ≠ 0
        ∧ (regex_search E re buf first last flags).get 0 = ⟨f.first, f.second, true⟩
        ∧ first ≤ f.first ∧ f.first ≤ f.second ∧ f.second ≤ last := by
  unfold regex_search
  cases hf : E.search re buf first last flags with
  | none => left; rfl
  | some f =>
    right
    obtain ⟨h1, h2, h3⟩ := hs re buf first last flags f hf
    exact ⟨f, rfl, by simp [match_results.size], rfl, h1, h2, h3⟩

/-- Every increment of an iterator at a well-formed match brings it to end-of-sequence or
lowers `remaining`: the iteration ends. -/
theorem incr_remaining (hs : E.sound) (hn : E.honours_not_null) (buf : Text)
    (it it1 : regex_iterator R) (re : R) (hre : it.pregex = some re)
    (hw : it.mtch.wf it.end_) (hincr : it.incr E buf = .ok it1) :
    it1.pregex = none ∨ it1.remaining < it.remaining := by
  obtain ⟨-, -, -, -, h12, h2e, -, -⟩ := wf_get_zero it.mtch it.end_ hw
  have key : ∀ start, (it.mtch.get 0).second ≤ start →
      ((it.mtch.get 0).first < (it.mtch.get 0).second ∨ (it.mtch.get 0).second < start) →
      ((it.search_on E buf re start (it.mtch.get 0).second).pregex = none ∨
        (it.search_on E buf re start (it.mtch.get 0).second).remaining < it.remaining) := by
    intro start hst hcase
    unfold regex_iterator.search_on
    simp only
    rcases regex_search_cases E hs re buf start it.end_
      { it.flags with prev_avail := true } with h0 | ⟨f, -, hsz, hg, f1, f2, f3⟩
    · left
      simp [h0, end_of_sequence]
    · right
      simp only [hsz, if_false, regex_iterator.remaining, adjust_get, hg]
      split_ifs <;> omega
  unfold regex_iterator.incr at hincr
  simp only [hre] at hincr
  split at hincr
  · rename_i hempty
    split at hincr
    · cases hincr
      left; rfl
    · rename_i hnotend
      rcases regex_search_cases E hs re buf (it.mtch.get 0).second it.end_
        { it.flags with not_null := true, continuous := true }
        with h0 | ⟨f, hf, hsz, hg, f1, f2, f3⟩
      · simp only [h0, if_true] at hincr
        cases hincr
        exact key _ (by omega) (Or.inr (by omega))
      · simp only [hsz, if_false] at hincr
        cases hincr
        right
        have hlt := hn re buf _ _ _ f rfl hf
        simp only [regex_iterator.remaining, adjust_get, hg]
        split_ifs <;> omega
  · rename_i hne
    cases hincr
    exact key _ (le_refl _) (Or.inl (by omega))

/-- The iterator `regex_iterator(a, b, re)` is at end-of-sequence or at a well-formed match
whose prefix starts at `a`. -/
theorem ctor_wf (hs : E.sound) (re : R) (buf : Text) (a b : Nat) :
    (regex_iterator.ctor E re buf a b).pregex = none ∨
      ((regex_iterator.ctor E re buf a b).pregex = some re
        ∧ (regex_iterator.ctor E re buf a b).end_ = b
        ∧ (regex_iterator.ctor E re buf a b).begin_ = a
        ∧ (regex_iterator.ctor E re buf a b).mtch.wf b
        ∧ (regex_iterator.ctor E re buf a b).mtch.pfx.first = a) := by
  unfold regex_iterator.ctor
  simp only
  split
  · left; rfl
  · rename_i hsz
    right
    obtain ⟨w1, w2⟩ := regex_search_wf E hs re buf a b _ hsz
    exact ⟨rfl, rfl, rfl, w1, w2⟩

/-- The iteration ends: an iterator that is at end-of-sequence or at a well-formed match
with `remaining < n` goes through at most `n` states. -/
theorem iter_seq_exists (hs : E.sound) (hn : E.honours_not_null) (buf : Text) (re : R) :
    ∀ (n : Nat) (it : regex_iterator R),
      (it.pregex = none ∨ (it.pregex = some re ∧ it.mtch.wf it.end_ ∧ it.remaining < n)) →
      ∃ its, iter_seq E buf it its ∧ its.length ≤ n := by
  intro n
  induction n with
  | zero =>
    intro it h
    rcases h with h | ⟨-, -, h⟩
    · exact ⟨[], h, le_refl _⟩
    · omega
  | succ n ih =>
    intro it h
    rcases h with h | ⟨hre, hw, hlt⟩
    · exact ⟨[], h, by simp⟩
    · obtain ⟨it1, hincr, hit1⟩ := incr_wf E hs buf it re hre hw
      have hdec := incr_remaining E hs hn buf it it1 re hre hw hincr
      have hnext : it1.pregex = none ∨
          (it1.pregex = some re ∧ it1.mtch.wf it1.end_ ∧ it1.remaining < n) := by
        rcases hit1 with h1 | ⟨h1, h2, -, h4, -⟩
        · exact Or.inl h1
        · rcases hdec with h0 | hlt1
          · exact Or.inl h0
          · exact Or.inr ⟨h1, by rw [h2]; exact h4, by omega⟩
      obtain ⟨its, hseq, hlen⟩ := ih it1 hnext
      refine ⟨it :: its, ⟨rfl, by simp [hre], ?_⟩, by simp; omega⟩
      rw [hincr]
      exact hseq

/-- The matches of a subject exist and are at most `2 * (b - a) + 2`: so much fuel always
lets the loop of `gsub` run to its end. -/
theorem iter_seq_exists_ctor (hs : E.sound) (hn : E.honours_not_null) (re : R) (buf : Text)
    (a b : Nat) :
    ∃ its, iter_seq E buf (regex_iterator.ctor E re buf a b) its
      ∧ its.length ≤ 2 * (b - a) + 2 := by
  apply iter_seq_exists E hs hn buf re
  rcases ctor_wf E hs re buf a b with h | ⟨h1, h2, -, h4, h5⟩
  · exact Or.inl h
  · refine Or.inr ⟨h1, by rw [h2]; exact h4, ?_⟩
    obtain ⟨-, -, -, c1, c2, c3, -, -⟩ := wf_get_zero _ _ h4
    rw [h5] at c1
    simp only [regex_iterator.remaining, h2]
    split_ifs <;> omega

end iterator_facts

section projection_facts

variable {R W : Type}

theorem projection_ne_nil (buf : Text) (m : match_results) : projection buf m ≠ [] := by
  unfold projection
  split
  · simp
  · split
    · simp
    · rename_i h0 h1
      have : (capture_texts buf m (m.size - 1)).length = m.size - 1 := by simp [capture_texts]
      intro h
      rw [h] at this
      simp at this
      omega

/-- With `only_subs = false`, `push_results` pushes the projection of the match and
returns its length. -/
theorem push_results_projection (L : lua_State R W) (buf : Text) (m : match_results) :
    push_results L buf m false = ((projection buf m).length, pushes L (projection buf m)) := by
  unfold projection
  split
  · rename_i h
    simpa using push_results_no_match L buf m false h
  · split
    · rename_i h
      simpa using push_results_whole L buf m h
    · rename_i h0 h1
      have hk : m.size = (m.size - 1) + 1 := by omega
      have := push_results_captures L buf m false (m.size - 1) (by omega) hk
      rw [this]
      simp [capture_texts]

end projection_facts

section gsub_facts

variable {R W : Type} [DecidableEq R] (E : Engine R) (H : Host W)

/-- Comparing with the end-of-sequence iterator tests the regex pointer. -/
theorem eq_end_of_sequence (buf : Text) (it : regex_iterator R) :
    regex_iterator.eq buf it end_of_sequence = decide (it.pregex = none) := by
  unfold regex_iterator.eq
  by_cases h : it.pregex = none
  · simp [h, end_of_sequence]
  · simp [h, end_of_sequence]

theorem eq_self_end (buf : Text) :
    regex_iterator.eq buf (end_of_sequence : regex_iterator R) end_of_sequence = true := by
  simp [regex_iterator.eq, end_of_sequence]

end gsub_facts

section gsub_body_facts

variable {R W : Type} (E : Engine R) (H : Host W)

theorem push_results_events (L : lua_State R W) (buf : Text) (m : match_results)
    (b : Bool) : (push_results L buf m b).2.events = L.events := by
  unfold push_results
  split
  · rfl
  · split
    · rfl
    · simp only [luaL_checkstack, foldl_pushlstring]
      rfl

theorem lua_gettable_events (L L1 : lua_State R W) (idx : Int)
    (h : lua_gettable H L idx = .ok L1) : L1.events.length = L.events.length + 1 := by
  unfold lua_gettable at h
  simp only at h
  split at h
  · cases h
  · cases h
    simp

theorem lua_call_events (L L1 : lua_State R W) (nargs : Nat)
    (h : lua_call H L nargs = .ok L1) : L1.events.length = L.events.length + 1 := by
  unfold lua_call at h
  simp only at h
  split at h
  · cases h
  · cases h
    simp

theorem lua_gettable_error (L : lua_State R W) (idx : Int) (e : Abort)
    (h : lua_gettable H L idx = .error e) : e ≠ .out_of_fuel := by
  unfold lua_gettable at h
  simp only at h
  split at h
  · cases h
    simp
  · cases h

theorem lua_call_error (L : lua_State R W) (nargs : Nat) (e : Abort)
    (h : lua_call H L nargs = .error e) : e ≠ .out_of_fuel := by
  unfold lua_call at h
  simp only at h
  split at h
  · cases h
    simp
  · cases h

theorem lua_tolstring_events (L : lua_State R W) (idx : Int) :
    (lua_tolstring H L idx).2.events = L.events := by
  unfold lua_tolstring
  split <;> rfl

/-- One pass through the body of the loop, whatever the replacement: it either raises an
error of the host or of the replacement value or overflows the count, or counts the
match, leaves the iterators alone and makes one call into the host for a table or a
function and none for a template. -/
theorem gsub_body_counts (sv : Text) (ty : lua_Type) (st : gsub_state R W) :
    (∃ e, gsub_body E H sv ty st = .error e ∧ e ≠ .out_of_fuel) ∨
    (∃ st1, gsub_body E H sv ty st = .ok st1 ∧ st1.n = st.n + 1 ∧ st1.it = st.it
      ∧ st1.last_it = st.last_it
      ∧ st1.L.events.length = st.L.events.length + calls_for ty 1) := by
  unfold gsub_body
  simp only
  by_cases hty : ty = .TTABLE ∨ ty = .TFUNCTION
  · simp only [hty, if_true]
    have herr : ∀ e,
        (if ty = lua_Type.TTABLE then
          lua_gettable H (lua_pop (push_results st.L sv st.it.mtch false).2
            ((push_results st.L sv st.it.mtch false).1 - 1)) 3
        else
          lua_call H (push_results (lua_pushvalue st.L 3) sv st.it.mtch false).2
            (push_results (lua_pushvalue st.L 3) sv st.it.mtch false).1) = .error e →
        e ≠ .out_of_fuel := by
      intro e he
      split at he
      · exact lua_gettable_error H _ _ e he
      · exact lua_call_error H _ _ e he
    have hok : ∀ L1,
        (if ty = lua_Type.TTABLE then
          lua_gettable H (lua_pop (push_results st.L sv st.it.mtch false).2
            ((push_results st.L sv st.it.mtch false).1 - 1)) 3
        else
          lua_call H (push_results (lua_pushvalue st.L 3) sv st.it.mtch false).2
            (push_results (lua_pushvalue st.L 3) sv st.it.mtch false).1) = .ok L1 →
        L1.events.length = st.L.events.length + 1 := by
      intro L1 h1
      split at h1
      · rw [lua_gettable_events H _ L1 _ h1]
        simp only [lua_pop, push_results_events]
      · rw [lua_call_events H _ L1 _ h1]
        simp only [push_results_events, lua_pushvalue, push]
    generalize (if ty = lua_Type.TTABLE then
          lua_gettable H (lua_pop (push_results st.L sv st.it.mtch false).2
            ((push_results st.L sv st.it.mtch false).1 - 1)) 3
        else
          lua_call H (push_results (lua_pushvalue st.L 3) sv st.it.mtch false).2
            (push_results (lua_pushvalue st.L 3) sv st.it.mtch false).1) = r at herr hok ⊢
    cases r with
    | error e => exact Or.inl ⟨e, rfl, herr e rfl⟩
    | ok L2 =>
      simp only
      by_cases hn : st.n < INT_MAX
      · by_cases hb : lua_toboolean L2 (-1) = true
        · simp only [hb, if_true]
          by_cases hstr : lua_isstring L2 (-1) = false
          · simp only [hstr, if_true]
            exact Or.inl ⟨_, rfl, by simp⟩
          · simp only [hstr, if_false, hn, if_true]
            refine Or.inr ⟨_, rfl, rfl, rfl, rfl, ?_⟩
            simp only [lua_pop, lua_tolstring_events, hok L2 rfl, calls_for, hty, if_true]
        · simp only [hb, if_false, hn, if_true]
          refine Or.inr ⟨_, rfl, rfl, rfl, rfl, ?_⟩
          simp only [lua_pop, hok L2 rfl, calls_for, hty, if_true]
      · left
        by_cases hb : lua_toboolean L2 (-1) = true
        · simp only [hb, if_true]
          by_cases hstr : lua_isstring L2 (-1) = false
          · simp only [hstr, if_true]
            exact ⟨_, rfl, by simp⟩
          · simp only [hstr, if_false, hn]
            exact ⟨_, rfl, by simp⟩
        · simp only [hb, if_false, hn]
          exact ⟨_, rfl, by simp⟩
  · simp only [hty, if_false]
    by_cases hn : st.n < INT_MAX
    · simp only [hn, if_true]
      refine Or.inr ⟨_, rfl, rfl, rfl, rfl, ?_⟩
      simp only [lua_tolstring_events, calls_for, hty, if_false, Nat.add_zero]
    · simp only [hn, if_false]
      exact Or.inl ⟨_, rfl, by simp⟩

end gsub_body_facts

section text_facts

theorem c_str_idem (s : Text) : c_str (c_str s) = c_str s := by
  unfold c_str
  induction s with
  | nil => rfl
  | cons c cs ih =>
    by_cases h : (c != NUL) = true
    · simp only [List.takeWhile_cons, h, if_true]
      rw [ih]
    · simp [List.takeWhile_cons, h]

end text_facts

section gsub_loop_facts

variable {R W : Type} [DecidableEq R] (E : Engine R) (H : Host W)

/-- Without a limit every match is processed. -/
theorem quota_unlimited (T : Nat) : quota 0 0 T = T := by
  simp [quota]

/-- A limit `k > 0` that fits an `int` allows `min(k, T)` matches. -/
theorem quota_in_range (k : Int) (T : Nat) (h0 : 0 < k) (h1 : k ≤ INT_MAX) :
    (quota (to_int k) 0 T : Int) = min k T := by
  have e : to_int k = k := to_int_of_range (by unfold INT_MIN; omega) h1
  have hk : ¬ k = 0 := by omega
  simp only [quota, e, hk, if_false, sub_zero]
  omega

/-- A negative limit allows no match. -/
theorem quota_negative (N : Int) (T : Nat) (h : N < 0) : quota N 0 T = 0 := by
  have hN : ¬ N = 0 := by omega
  have e : (N - 0).toNat = 0 := by omega
  simp only [quota, hN, if_false, e]
  omega

theorem quota_nil (N n : Int) : quota N n 0 = 0 := by
  unfold quota
  split <;> simp

theorem quota_stop (N n : Int) (T : Nat) (h : ¬ (N = 0 ∨ n < N)) : quota N n T = 0 := by
  unfold quota
  have h0 : ¬ N = 0 := fun h0 => h (Or.inl h0)
  have h1 : (N - n).toNat = 0 := by omega
  simp [h0, h1]

theorem quota_step (N n : Int) (T : Nat) (h : N = 0 ∨ n < N) :
    quota N n (T + 1) = quota N (n + 1) T + 1 := by
  unfold quota
  by_cases h0 : N = 0
  · simp [h0]
  · simp only [h0, if_false]
    have h1 : (N - n).toNat = (N - (n + 1)).toNat + 1 := by omega
    rw [h1]
    omega

theorem calls_for_add (ty : lua_Type) (a b : Nat) :
    calls_for ty a + calls_for ty b = calls_for ty (a + b) := by
  unfold calls_for
  split <;> rfl

/-- The loop of `gsub`, whatever the replacement and the limit: given fuel for all the
matches it never runs out of it; it either raises an error (of the host, of a
replacement value, or the overflow of the count), or it ends having counted `quota`
matches and made one call into the host for each when the replacement is a table or a
function. -/
theorem gsub_loop_counts (sv : Text) (N : Int) (ty : lua_Type) :
    ∀ (its : List (regex_iterator R)) (st : gsub_state R W) (fuel : Nat),
      iter_seq E sv st.it its → its.length < fuel →
      (∃ e, gsub_loop E H sv N ty fuel st = .error e ∧ e ≠ .out_of_fuel) ∨
      (∃ st1, gsub_loop E H sv N ty fuel st = .ok st1
        ∧ st1.n = st.n + quota N st.n its.length
        ∧ st1.L.events.length = st.L.events.length + calls_for ty (quota N st.n its.length))
    := by
  intro its
  induction its with
  | nil =>
    intro st fuel hseq hfuel
    obtain ⟨f, rfl⟩ : ∃ f, fuel = f + 1 := ⟨fuel - 1, by omega⟩
    have hnone : st.it.pregex = none := hseq
    refine Or.inr ⟨st, ?_, by simp [quota_nil], by simp [quota_nil, calls_for]⟩
    simp [gsub_loop, eq_end_of_sequence, hnone]
  | cons x xs ih =>
    intro st fuel hseq hfuel
    obtain ⟨f, rfl⟩ : ∃ f, fuel = f + 1 := ⟨fuel - 1, by omega⟩
    obtain ⟨-, hne, hstep⟩ := hseq
    have hc : regex_iterator.eq sv st.it end_of_sequence = false := by
      rw [eq_end_of_sequence]
      simp [hne]
    by_cases hlim : N = 0 ∨ st.n < N
    · rcases gsub_body_counts E H sv ty st with ⟨e, he, hne2⟩ | ⟨st1, hb, hn1, hit, -, hev1⟩
      · left
        refine ⟨e, ?_, hne2⟩
        simp only [gsub_loop, hc, hlim, and_self, if_true, he]
      · cases hinc : st.it.incr E sv with
        | error e => rw [hinc] at hstep; exact hstep.elim
        | ok it1 =>
          rw [hinc] at hstep
          have hunf : gsub_loop E H sv N ty (f + 1) st
              = gsub_loop E H sv N ty f { st1 with last_it := st1.it, it := it1 } := by
            simp only [gsub_loop, hc, hlim, and_self, if_true, hb, hit, hinc]
          rw [hunf]
          rcases ih { st1 with last_it := st1.it, it := it1 } f hstep
            (by simp at hfuel; omega) with ⟨e, he, hne2⟩ | ⟨st2, h2, hn2, hev2⟩
          · exact Or.inl ⟨e, he, hne2⟩
          · refine Or.inr ⟨st2, h2, ?_, ?_⟩
            · rw [hn2]
              simp only [hn1, List.length_cons, quota_step N st.n xs.length hlim]
              push_cast
              omega
            · rw [hev2]
              simp only [hn1, hev1, List.length_cons, quota_step N st.n xs.length hlim]
              rw [Nat.add_assoc, calls_for_add, Nat.add_comm 1]
    · refine Or.inr ⟨st, ?_, by simp [quota_stop N st.n _ hlim],
        by simp [quota_stop N st.n _ hlim, calls_for]⟩
      simp only [gsub_loop, hc, hlim, and_false, if_false]

/-- The whole of `gsub` for a subject with `T` matches, whatever the replacement and the
limit: with fuel for all the matches it never runs out of it; unless an error is raised
(of the host, of a replacement value, or the overflow of the count), it returns two
values, the second being the count
`quota N 0 T` for the limit `N` as an `int` (all `T` matches for `N = 0`, none for
`N < 0`, `min(N, T)` otherwise), and a table or a function has been consulted exactly
that many times. -/
theorem gsub_counts (L L2 : lua_State R W) (s : Text) (re : R) (N0 : Int)
    (its : List (regex_iterator R)) (fuel : Nat)
    (h1 : index2value L 1 = some (.string s))
    (hre : get_regex E H L = .ok (re, L2))
    (hrepl : lua_isstring L 3 = true ∨ lua_isfunction L 3 = true ∨ lua_istable L 3 = true)
    (hN : luaL_optinteger H L 4 0 = .ok N0)
    (hseq : iter_seq E (c_str s) (regex_iterator.ctor E re (c_str s) 0 (c_str s).length) its)
    (hfuel : its.length < fuel) :
    (∃ e, gsub E H fuel L = .error e ∧ e ≠ .out_of_fuel) ∨
    (∃ Lf text, gsub E H fuel L = .ok (2, Lf)
      ∧ returned (2, Lf) = [text, .integer (quota (to_int N0) 0 its.length)]
      ∧ Lf.events.length
          = L.events.length + calls_for (lua_type L 3) (quota (to_int N0) 0 its.length)) := by
  have hf := get_regex_frame E H L L2 re hre
  have i3 : index2value L2 3 = index2value L 3 :=
    get_regex_index E H L L2 re hre 3 (by omega) (by omega)
  have i4 : index2value L2 ((4 : Nat) : Int) = index2value L ((4 : Nat) : Int) :=
    get_regex_index E H L L2 re hre 4 (by omega) (by omega)
  have hrepl2 : ¬ (lua_isstring L2 3 = false ∧ lua_isfunction L2 3 = false
      ∧ lua_istable L2 3 = false) := by
    have e1 : lua_isstring L2 3 = lua_isstring L 3 := by simp only [lua_isstring, i3]
    have e2 : lua_isfunction L2 3 = lua_isfunction L 3 := by
      simp only [lua_isfunction, lua_type, i3]
    have e3 : lua_istable L2 3 = lua_istable L 3 := by simp only [lua_istable, lua_type, i3]
    rw [e1, e2, e3]
    rintro ⟨a, b, c⟩
    rcases hrepl with h | h | h
    · rw [a] at h; cases h
    · rw [b] at h; cases h
    · rw [c] at h; cases h
  have hN2 : luaL_optinteger H L2 4 0 = .ok N0 := by
    rw [← hN]
    simp only [luaL_optinteger, i4]
  have hty3 : lua_type L2 3 = lua_type L 3 := by simp only [lua_type, i3]
  have hcs : luaL_checkstring H L 1 = .ok (s, L) := luaL_checkstring_string H L 1 s h1
  simp only [gsub, hcs, hre, hrepl2, if_false, hN2, hty3]
  rcases gsub_loop_counts E H (c_str s) (to_int N0) (lua_type L 3) its
    ⟨L2, 0, [], regex_iterator.ctor E re (c_str s) 0 (c_str s).length,
      regex_iterator.ctor E re (c_str s) 0 (c_str s).length⟩ fuel hseq hfuel
    with ⟨e, he, hne⟩ | ⟨st1, h2, hn, hev⟩
  · exact Or.inl ⟨e, by simp only [he], hne⟩
  · right
    simp only [h2]
    have hn0 : st1.n = (quota (to_int N0) 0 its.length : Int) := by simpa using hn
    have hev0 : st1.L.events.length
        = L.events.length + calls_for (lua_type L 3) (quota (to_int N0) 0 its.length) := by
      rw [hev, hf.2.2.1]
    by_cases hpos : st1.n > 0
    · simp only [hpos, if_true]
      have hr := returned_two st1.L (.string (c_str
        (if regex_iterator.eq (c_str s) st1.last_it st1.it = false then
          st1.result ++ slice (c_str s) st1.last_it.mtch.sfx.first st1.last_it.mtch.sfx.length
        else st1.result))) st1.n
      exact ⟨_, _, rfl, hr.trans (by rw [hn0]), hev0⟩
    · simp only [hpos, if_false]
      have hr := returned_two st1.L ((index2value st1.L 1).getD .nil) st1.n
      exact ⟨_, _, rfl, hr.trans (by rw [hn0]), hev0⟩

end gsub_loop_facts

section literal_engine_facts

/-- The engine for literal patterns reports no empty match under `match_not_null`. -/
theorem literal_engine_honours_not_null : literal_engine.honours_not_null := by
  intro re buf first last flags f hflag h
  simp only [literal_engine, literal_search] at h
  split at h
  · cases h
  · rename_i hnn
    split at h
    · cases h
    · rename_i i hfind
      cases h
      have : (pieces_text re).length ≠ 0 := fun h0 => hnn ⟨hflag, h0⟩
      show i < i + (pieces_text re).length
      omega

end literal_engine_facts

section claims_gsub

variable {R W : Type} [DecidableEq R] (E : Engine R) (H : Host W)

/-- C8: when the pattern has no match in the subject (as `gsub` reads it), then for every
valid replacement and maxCount `gsub` returns the value of the subject argument itself
(pushed with `lua_pushvalue`, not rebuilt) and the count 0, and calls nothing in the
host: the record of calls and the world are as they were. -/
theorem C8_gsub_no_match_returns_subject (L L2 : lua_State R W) (s : Text) (re : R)
    (N0 : Int) (fuel : Nat)
    (h1 : index2value L 1 = some (.string s))
    (hre : get_regex E H L = .ok (re, L2))
    (hrepl : lua_isstring L 3 = true ∨ lua_isfunction L 3 = true ∨ lua_istable L 3 = true)
    (hN : luaL_optinteger H L 4 0 = .ok N0)
    (hno : E.search re (c_str s) 0 (c_str s).length match_default = none)
    (hfuel : 1 ≤ fuel) :
    gsub E H fuel L = .ok (2, pushes L2 [.string s, .integer 0])
    ∧ returned (2, pushes L2 [.string s, .integer 0]) = [.string s, .integer 0]
    ∧ L2.events = L.events ∧ L2.world = L.world := by
  have hf := get_regex_frame E H L L2 re hre
  have i1 : index2value L2 1 = some (.string s) := by
    have := get_regex_index E H L L2 re hre 1 (by omega) (by omega)
    exact this.trans h1
  have i3 : index2value L2 3 = index2value L 3 :=
    get_regex_index E H L L2 re hre 3 (by omega) (by omega)
  have i4 : index2value L2 ((4 : Nat) : Int) = index2value L ((4 : Nat) : Int) :=
    get_regex_index E H L L2 re hre 4 (by omega) (by omega)
  have hrepl2 : ¬ (lua_isstring L2 3 = false ∧ lua_isfunction L2 3 = false
      ∧ lua_istable L2 3 = false) := by
    have e1 : lua_isstring L2 3 = lua_isstring L 3 := by simp only [lua_isstring, i3]
    have e2 : lua_isfunction L2 3 = lua_isfunction L 3 := by
      simp only [lua_isfunction, lua_type, i3]
    have e3 : lua_istable L2 3 = lua_istable L 3 := by simp only [lua_istable, lua_type, i3]
    rw [e1, e2, e3]
    rintro ⟨a, b, c⟩
    rcases hrepl with h | h | h
    · rw [a] at h; cases h
    · rw [b] at h; cases h
    · rw [c] at h; cases h
  have hN2 : luaL_optinteger H L2 4 0 = .ok N0 := by
    rw [← hN]
    simp only [luaL_optinteger, i4]
  refine ⟨?_, returned_pushes L2 [.string s, .integer 0], hf.2.2.1, hf.1⟩
  obtain ⟨f, rfl⟩ : ∃ f, fuel = f + 1 := ⟨fuel - 1, by omega⟩
  have hcs : luaL_checkstring H L 1 = .ok (s, L) := luaL_checkstring_string H L 1 s h1
  simp only [gsub, hcs, hre, hrepl2, if_false, hN2, ctor_no_match E re _ _ _ hno, gsub_loop,
    eq_self_end, Bool.true_eq_false, false_and, lt_self_iff_false, gt_iff_lt]
  simp [lua_pushvalue, i1, lua_pushinteger, push, pushes]

end claims_gsub

/-- The call `regex.gsub("no match", "z", f)` returns its subject and 0 and never calls
`f`. -/
theorem C8_gsub_no_match_witness :
    gsub literal_engine quiet_host 1 (enter [str "no match", str "z", .function 0])
      = .ok (2, pushes (enter [str "no match", str "z", .function 0])
          [str "no match", .integer 0]) :=
  (C8_gsub_no_match_returns_subject literal_engine quiet_host
    (enter [str "no match", str "z", .function 0])
    (enter [str "no match", str "z", .function 0])
    "no match".toList [(false, "z".toList)] 0 1 rfl rfl (Or.inr (Or.inl rfl)) rfl rfl
    (by decide)).1

/-- C2 (the code differs): `regex.gsub("aaa", "a", "b", 2)` returns "bb" and 2, not "bba"
and 2.  After the second replacement `last_it` is at the second "a" and `it` at the third;
`last_it != it` compares the two as `regex_iterator`s, which are equal when their matches
have the same text, so the remainder of the subject is not appended. -/
theorem C2_gsub_loses_remainder :
    (gsub literal_engine quiet_host 4 (enter [str "aaa", str "a", str "b", .integer 2])).map
      returned = .ok [str "bb", .integer 2] := rfl

/-- The two iterators `gsub("aaa", "a", "b", 2)` compares after its loop, the one at the
second "a" and the one at the third, are equal as `regex_iterator`s. -/
theorem iterators_at_equal_texts_compare_equal :
    regex_iterator.eq "aaa".toList
      (⟨0, 3, some [(false, "a".toList)], ⟨true, false, false⟩,
        ⟨[⟨1, 2, true⟩], ⟨1, 1, false⟩, ⟨2, 3, true⟩, 0⟩⟩ : regex_iterator Pieces)
      ⟨0, 3, some [(false, "a".toList)], ⟨true, false, false⟩,
        ⟨[⟨2, 3, true⟩], ⟨2, 2, false⟩, ⟨3, 3, false⟩, 0⟩⟩ = true := by
  decide

/-- The same call under any engine and any host: whenever the engine compiles "a", finds
the three occurrences of "a" in "aaa" one after the other and expands the template "b" to
itself, `regex.gsub("aaa", "a", "b", 2)` returns "bb" and 2. -/
theorem gsub_aaa_limit_two_any_engine {R W : Type} [DecidableEq R] (E : Engine R)
    (H : Host W) (re : R) (w : W) (heap : List (Generator R)) (evs : List Event)
    (hc : E.compile ['a'] = .ok re)
    (h0 : E.search re ['a', 'a', 'a'] 0 3 ⟨false, false, false⟩ = some ⟨0, 1, []⟩)
    (h1 : E.search re ['a', 'a', 'a'] 1 3 ⟨true, false, false⟩ = some ⟨1, 2, []⟩)
    (h2 : E.search re ['a', 'a', 'a'] 2 3 ⟨true, false, false⟩ = some ⟨2, 3, []⟩)
    (hfmt : ∀ m, E.format ['a', 'a', 'a'] m ['b'] = ['b']) :
    (gsub E H 4 ⟨[.string ['a', 'a', 'a'], .string ['a'], .string ['b'], .integer 2],
        w, heap, evs⟩).map returned
      = .ok [.string ['b', 'b'], .integer 2] := by
  have hcs : c_str ['a', 'a', 'a'] = ['a', 'a', 'a'] := by decide
  have hcp : c_str ['a'] = ['a'] := by decide
  have hcb : c_str ['b'] = ['b'] := by decide
  have hcbb : c_str ['b', 'b'] = ['b', 'b'] := by decide
  simp [gsub, luaL_checkstring, index2value, lua_absindex, get_regex, hcs, hcp, hc,
    lua_isstring, lua_isfunction, lua_istable, lua_type, LuaValue.isstring, LuaValue.type,
    luaL_optinteger, lua_tointegerx, to_int, regex_iterator.ctor, regex_search, h0,
    match_default, match_results.size, gsub_loop, regex_iterator.eq, end_of_sequence,
    gsub_body, INT_MAX, lua_tolstring, hcb, hfmt, regex_iterator.incr, match_results.get,
    regex_iterator.search_on, h1, h2, adjust, slice, sub_match.length, sub_match.str,
    lua_pushstring, lua_pushinteger, push, returned, Except.map, hcbb]

/-- With a limit of 1 the remainder is kept: "baa" and 1. -/
theorem gsub_aaa_limit_one :
    (gsub literal_engine quiet_host 4 (enter [str "aaa", str "a", str "b", .integer 1])).map
      returned = .ok [str "baa", .integer 1] := rfl

/-- The scenario `substituteAll("aaa", "a", "b")` of the specification: "bbb" and 3. -/
theorem gsub_aaa_unlimited :
    (gsub literal_engine quiet_host 4 (enter [str "aaa", str "a", str "b"])).map returned
      = .ok [str "bbb", .integer 3] := rfl

/-- C3 (the code differs): `regex.gsub("aaa", "a", "b", 4294967297)` makes one replacement
and returns the count 1, not min(4294967297, 3) = 3: the limit is stored in an `int`,
where it is 1. -/
theorem C3_gsub_narrows_limit :
    (gsub literal_engine quiet_host 4
      (enter [str "aaa", str "a", str "b", .integer 4294967297])).map returned
      = .ok [str "baa", .integer 1] := rfl

section generator_facts

variable {R W : Type} [DecidableEq R] (E : Engine R) (H : Host W)

/-- One call of `generator` while the iterator of the Generator at `addr` is at a match:
it pushes the projection of that match and leaves the iterator at the next state. -/
theorem generator_at_match (L : lua_State R W) (addr : Nat) (ctl : LuaValue)
    (g : Generator R) (it1 : regex_iterator R)
    (hh : L.heap.get? addr = some g) (hlast : g.last = end_of_sequence)
    (hne : g.it.pregex ≠ none) (hincr : g.it.incr E g.sv = .ok it1) :
    advance E L (.userdata addr (some "regex_gmatch")) ctl
      = .ok ((projection g.sv g.it.mtch).length,
          pushes { L with stack := [.userdata addr (some "regex_gmatch"), ctl],
                          heap := L.heap.set addr { g with it := it1 } }
            (projection g.sv g.it.mtch)) := by
  have hidx : index2value ({ L with stack := [.userdata addr (some "regex_gmatch"), ctl] }
      : lua_State R W) ((1 : Nat) : Int) = some (.userdata addr (some "regex_gmatch")) := by
    rw [index2value_pos _ 1 (by omega)]
    rfl
  have heq : regex_iterator.eq g.sv g.it end_of_sequence = false := by
    rw [eq_end_of_sequence]
    simp [hne]
  simp only [advance, generator, luaL_checkudata, hidx, if_true, hh, Generator.next, hincr,
    Generator.end_, hlast, heq, push_results_projection]

/-- The turns of the generic `for` over a Generator whose iterator goes through the states
`its`: turn `i + 1` returns the projection of the match of `its[i]`. -/
theorem advance_n_emits (sv : Text) (addr : Nat) :
    ∀ (i : Nat) (its : List (regex_iterator R)) (L : lua_State R W) (ctl : LuaValue)
      (g : Generator R) (hi : i < its.length),
      L.heap.get? addr = some g → g.last = end_of_sequence → g.sv = sv →
      iter_seq E sv g.it its →
      ∃ Li ctl1, advance_n E i L (.userdata addr (some "regex_gmatch")) ctl = .ok (Li, ctl1)
        ∧ (advance E Li (.userdata addr (some "regex_gmatch")) ctl1).map returned
            = .ok (projection sv (its.get ⟨i, hi⟩).mtch) := by
  intro i
  induction i with
  | zero =>
    intro its L ctl g hi hh hlast hsv hseq
    cases its with
    | nil => simp at hi
    | cons x xs =>
      obtain ⟨hx, hne, hstep⟩ := hseq
      cases hinc : g.it.incr E sv with
      | error e => rw [hinc] at hstep; exact hstep.elim
      | ok it1 =>
        refine ⟨L, ctl, rfl, ?_⟩
        rw [generator_at_match E L addr ctl g it1 hh hlast hne (by rw [hsv]; exact hinc)]
        simp only [Except.map, List.get_eq_getElem, List.getElem_cons_zero, hx, hsv]
        rw [returned_pushes]
  | succ i ih =>
    intro its L ctl g hi hh hlast hsv hseq
    cases its with
    | nil => simp at hi
    | cons x xs =>
      obtain ⟨hx, hne, hstep⟩ := hseq
      cases hinc : g.it.incr E sv with
      | error e => rw [hinc] at hstep; exact hstep.elim
      | ok it1 =>
        rw [hinc] at hstep
        have hlt : addr < L.heap.length := by
          by_contra hc
          rw [List.get?_eq_none.mpr (by omega)] at hh
          cases hh
        have hi1 : i < xs.length := by simpa using hi
        have hstepn := generator_at_match E L addr ctl g it1 hh hlast hne
          (by rw [hsv]; exact hinc)
        obtain ⟨Li, ctl1, hadv, hret⟩ := ih xs
          (pushes { L with stack := [.userdata addr (some "regex_gmatch"), ctl],
                           heap := L.heap.set addr { g with it := it1 } }
            (projection g.sv g.it.mtch))
          ((returned ((projection g.sv g.it.mtch).length,
            pushes { L with stack := [.userdata addr (some "regex_gmatch"), ctl],
                            heap := L.heap.set addr { g with it := it1 } }
              (projection g.sv g.it.mtch))).headD .nil)
          { g with it := it1 } hi1
          (by simp [pushes, List.getElem?_set_self, hlt]) hlast hsv hstep
        refine ⟨Li, ctl1, ?_, ?_⟩
        · simp only [advance_n, hstepn]
          exact hadv
        · simpa using hret

end generator_facts

section gmatch_facts

variable {R W : Type} (E : Engine R) (H : Host W)

/-- What a successful `gmatch` returns for a subject and a pattern that are strings: the
function `generator`, a userdata whose Generator iterates over the subject as a C string
from the resolved offset on, and nil. -/
theorem gmatch_ok_elim (L Lg : lua_State R W) (s p : Text) (re : R) (o : Int)
    (h1 : index2value L 1 = some (.string s)) (h2 : index2value L 2 = some (.string p))
    (hc : E.compile (c_str p) = .ok re) (ho : get_init H L = .ok o)
    (hg : gmatch E H L = .ok (3, Lg)) :
    returned (3, Lg)
        = [.cfunction "generator", .userdata L.heap.length (some "regex_gmatch"), .nil]
    ∧ Lg.heap.get? L.heap.length
        = some ⟨c_str s, c_str s, re,
            regex_iterator.ctor E re (c_str s) o.toNat (c_str s).length, end_of_sequence⟩
    ∧ 0 ≤ o ∧ o ≤ ((c_str s).length : Int) := by
  have a1 : index2value (push (push L (.cfunction "generator"))
      (.userdata (push L (.cfunction "generator")).heap.length none)) ((1 : Nat) : Int)
      = some (.string s) := by
    have e := index2value_pos L 1 (by omega)
    rw [show ((1 : Nat) : Int) = 1 from rfl, h1] at e
    have hl : 0 < L.stack.length := by
      by_contra hcon
      rw [List.get?_eq_none.mpr (by omega)] at e
      cases e
    rw [index2value_pos _ 1 (by omega)]
    simp only [push, List.append_assoc]
    rw [List.get?_eq_getElem?, List.getElem?_append_left (by omega), ← List.get?_eq_getElem?]
    exact e.symm
  have a2 : index2value (push (push L (.cfunction "generator"))
      (.userdata (push L (.cfunction "generator")).heap.length none)) ((2 : Nat) : Int)
      = some (.string p) := by
    have e := index2value_pos L 2 (by omega)
    rw [show ((2 : Nat) : Int) = 2 from rfl, h2] at e
    have hl : 1 < L.stack.length := by
      by_contra hcon
      rw [List.get?_eq_none.mpr (by omega)] at e
      cases e
    rw [index2value_pos _ 2 (by omega)]
    simp only [push, List.append_assoc]
    rw [List.get?_eq_getElem?, List.getElem?_append_left (by omega), ← List.get?_eq_getElem?]
    exact e.symm
  have hcs := luaL_checkstring_string H _ 1 s a1
  have hrx : get_regex E H (push (push L (.cfunction "generator"))
      (.userdata (push L (.cfunction "generator")).heap.length none))
      = .ok (re, push (push L (.cfunction "generator"))
          (.userdata (push L (.cfunction "generator")).heap.length none)) := by
    simp only [get_regex, luaL_checkstring_string H _ 2 p a2, hc]
  unfold gmatch at hg
  simp only [ho, hcs, hrx, Generator.ctor, c_str_idem] at hg
  by_cases hrange : o < 0 ∨ ((c_str s).length : Int) < o
  · simp only [hrange, if_true] at hg
    cases hg
  · simp only [hrange, if_false] at hg
    have hLg := (Prod.mk.inj (Except.ok.inj hg)).2
    subst hLg
    refine ⟨?_, ?_, by omega, by omega⟩
    · simp [returned, lua_pushnil, setmetatable_top, push]
    · simp [lua_pushnil, setmetatable_top, push]

end gmatch_facts

/-- C10: when `gmatch` has returned and the matches of the subject from the resolved
offset `o` are `its` (the states its iterator goes through, in order), then for every
`i < T` turn `i + 1` of the generic `for`, that is the `(i+1)`-th call of `generator` on
the state `gmatch` returned, emits exactly the projection with `only_subs = false` of the
`(i+1)`-th match. -/
theorem C10_generator_emits_each_match_in_order {R W : Type} [DecidableEq R]
    (E : Engine R) (H : Host W) (L Lg : lua_State R W) (s p : Text) (re : R) (o : Int)
    (its : List (regex_iterator R)) (i : Nat)
    (h1 : index2value L 1 = some (.string s)) (h2 : index2value L 2 = some (.string p))
    (hc : E.compile (c_str p) = .ok re) (ho : get_init H L = .ok o)
    (hg : gmatch E H L = .ok (3, Lg))
    (hseq : iter_seq E (c_str s)
      (regex_iterator.ctor E re (c_str s) o.toNat (c_str s).length) its)
    (hi : i < its.length) :
    ∃ state Li ctl, returned (3, Lg) = [.cfunction "generator", state, .nil]
      ∧ advance_n E i Lg state .nil = .ok (Li, ctl)
      ∧ (advance E Li state ctl).map returned
          = .ok (projection (c_str s) (its.get ⟨i, hi⟩).mtch) := by
  obtain ⟨hret, hheap, -, -⟩ := gmatch_ok_elim E H L Lg s p re o h1 h2 hc ho hg
  obtain ⟨Li, ctl, ha, hr⟩ := advance_n_emits E (c_str s) L.heap.length i its Lg .nil _ hi
    hheap rfl rfl hseq
  exact ⟨_, Li, ctl, hret, ha, hr⟩

/-- The loop `for m in regex.gmatch("abcabc", "b") do ... end`: the second turn emits the
second match, the "b" at offset 4. -/
theorem C10_generator_witness :
    ∃ state Li ctl,
      returned (3, state_of (gmatch literal_engine quiet_host (enter [str "abcabc", str "b"]))
          (enter [])) = [.cfunction "generator", state, .nil]
      ∧ advance_n literal_engine 1
          (state_of (gmatch literal_engine quiet_host (enter [str "abcabc", str "b"]))
            (enter [])) state .nil = .ok (Li, ctl)
      ∧ (advance literal_engine Li state ctl).map returned
          = .ok (projection "abcabc".toList
              ⟨[⟨4, 5, true⟩], ⟨2, 4, true⟩, ⟨5, 6, true⟩, 0⟩) :=
  C10_generator_emits_each_match_in_order literal_engine quiet_host
    (enter [str "abcabc", str "b"])
    (state_of (gmatch literal_engine quiet_host (enter [str "abcabc", str "b"])) (enter []))
    "abcabc".toList "b".toList [(false, "b".toList)] 0
    (matches_of literal_engine "abcabc".toList 7
      (regex_iterator.ctor literal_engine [(false, "b".toList)] "abcabc".toList 0 6))
    1 rfl rfl rfl rfl rfl (by decide) (by decide)

/-- C1 (the code differs): for the subject "abc" (L = 3) and the start I = 4294967296 the
policy gives `min(I, L+1) - 1 = 3`, but `get_init` first stores the start in an `int`,
where it is 0, and returns the offset 0. -/
theorem C1_get_init_narrows_start :
    get_init quiet_host (enter [str "abc", str "c", .integer 4294967296]) = .ok 0
    ∧ resolved_offset 4294967296 3 = 3 := by
  constructor
  · rfl
  · decide


/-! ## The generator after its last match -/

section generator_end_facts

variable {R W : Type} [DecidableEq R] (E : Engine R)

/-- One call of `generator` while the iterator of the Generator is at end-of-sequence:
`Generator::next` increments the iterator before `generator` compares it with the end,
and incrementing the end-of-sequence iterator is undefined. -/
theorem generator_at_end (L : lua_State R W) (addr : Nat) (ctl : LuaValue)
    (g : Generator R) (hh : L.heap.get? addr = some g) (hend : g.it.pregex = none) :
    advance E L (.userdata addr (some "regex_gmatch")) ctl = .error .undefined := by
  have hidx : index2value ({ L with stack := [.userdata addr (some "regex_gmatch"), ctl] }
      : lua_State R W) ((1 : Nat) : Int) = some (.userdata addr (some "regex_gmatch")) := by
    rw [index2value_pos _ 1 (by omega)]
    rfl
  simp only [advance, generator, luaL_checkudata, hidx, if_true, hh, Generator.next,
    regex_iterator.incr, hend]

/-- After as many turns as there are matches the iterator of the Generator is at
end-of-sequence. -/
theorem advance_n_reaches_end (sv : Text) (addr : Nat) :
    ∀ (its : List (regex_iterator R)) (L : lua_State R W) (ctl : LuaValue) (g : Generator R),
      L.heap.get? addr = some g → g.last = end_of_sequence → g.sv = sv →
      iter_seq E sv g.it its →
      ∃ Li ctl1 g1,
        advance_n E its.length L (.userdata addr (some "regex_gmatch")) ctl = .ok (Li, ctl1)
        ∧ Li.heap.get? addr = some g1 ∧ g1.it.pregex = none := by
  intro its
  induction its with
  | nil =>
    intro L ctl g hh _ _ hseq
    exact ⟨L, ctl, g, rfl, hh, hseq⟩
  | cons x xs ih =>
    intro L ctl g hh hlast hsv hseq
    obtain ⟨-, hne, hstep⟩ := hseq
    cases hinc : g.it.incr E sv with
    | error e => rw [hinc] at hstep; exact hstep.elim
    | ok it1 =>
      rw [hinc] at hstep
      have hlt : addr < L.heap.length := by
        by_contra hc
        rw [List.get?_eq_none.mpr (by omega)] at hh
        cases hh
      have hstepn := generator_at_match E L addr ctl g it1 hh hlast hne
        (by rw [hsv]; exact hinc)
      obtain ⟨Li, ctl1, g1, hadv, hheap, hend⟩ := ih
        (pushes { L with stack := [.userdata addr (some "regex_gmatch"), ctl],
                         heap := L.heap.set addr { g with it := it1 } }
          (projection g.sv g.it.mtch))
        ((returned ((projection g.sv g.it.mtch).length,
          pushes { L with stack := [.userdata addr (some "regex_gmatch"), ctl],
                          heap := L.heap.set addr { g with it := it1 } }
            (projection g.sv g.it.mtch))).headD .nil)
        { g with it := it1 }
        (by simp [pushes, List.getElem?_set_self, hlt]) hlast hsv hstep
      refine ⟨Li, ctl1, g1, ?_, hheap, hend⟩
      simp only [List.length_cons, advance_n, hstepn]
      exact hadv

/-- The turn after the last match, for every Generator and every number of matches: the
call of `generator` increments the end-of-sequence iterator, which is undefined. -/
theorem advance_after_last_match (sv : Text) (addr : Nat) (its : List (regex_iterator R))
    (L : lua_State R W) (ctl : LuaValue) (g : Generator R)
    (hh : L.heap.get? addr = some g) (hlast : g.last = end_of_sequence) (hsv : g.sv = sv)
    (hseq : iter_seq E sv g.it its) :
    ∃ Li ctl1,
      advance_n E its.length L (.userdata addr (some "regex_gmatch")) ctl = .ok (Li, ctl1)
      ∧ advance E Li (.userdata addr (some "regex_gmatch")) ctl1 = .error .undefined := by
  obtain ⟨Li, ctl1, g1, hadv, hheap, hend⟩ :=
    advance_n_reaches_end E sv addr its L ctl g hh hlast hsv hseq
  exact ⟨Li, ctl1, hadv, generator_at_end E Li addr ctl1 g1 hheap hend⟩

end generator_end_facts

/-- C11 (the code differs): the loop `for m in regex.gmatch("abc", "z") do ... end` over a
subject without a match (T = 0).  `gmatch` returns the function, the state and nil; the
first call of the function on the state should emit nil, but `generator` first increments
the iterator, which is at end-of-sequence already: the behaviour is undefined. -/
theorem C11_generator_increments_past_the_end :
    returned (3, state_of (gmatch literal_engine quiet_host (enter [str "abc", str "z"]))
        (enter []))
      = [.cfunction "generator", .userdata 0 (some "regex_gmatch"), .nil]
    ∧ advance literal_engine
        (state_of (gmatch literal_engine quiet_host (enter [str "abc", str "z"])) (enter []))
        (.userdata 0 (some "regex_gmatch")) .nil = .error .undefined :=
  ⟨rfl, rfl⟩


section projection_text_facts

variable {R W : Type}

/-- The projection of a real match holds texts only: at least one, and never nil. -/
theorem projection_all_text (buf : Text) (m : match_results) (h : m.size ≠ 0) :
    projection buf m ≠ [] ∧ ∀ v ∈ projection buf m, ∃ t, v = LuaValue.string t := by
  refine ⟨projection_ne_nil buf m, ?_⟩
  intro v hv
  unfold projection at hv
  simp only [h, if_false] at hv
  split at hv
  · simp only [List.mem_singleton] at hv
    exact ⟨_, hv⟩
  · simp only [capture_texts, List.mem_map] at hv
    obtain ⟨i, -, hi⟩ := hv
    exact ⟨_, hi.symm⟩

/-- For a real match and `only_subs = false`, `push_results` pushes at least one value
and every value it pushes is a text. -/
theorem push_results_real_match (L : lua_State R W) (buf : Text) (m : match_results)
    (h : m.size ≠ 0) :
    ∃ vs, push_results L buf m false = (vs.length, pushes L vs) ∧ 1 ≤ vs.length
      ∧ ∀ v ∈ vs, ∃ t, v = LuaValue.string t := by
  obtain ⟨hne, hall⟩ := projection_all_text buf m h
  refine ⟨projection buf m, push_results_projection L buf m, ?_, hall⟩
  exact List.length_pos.mpr hne

end projection_text_facts

section generator_text_facts

variable {R W : Type} [DecidableEq R] (E : Engine R)

/-- While there are matches left the first value a turn of the generic `for` returns is a
text, not nil: the loop does not stop before the last match. -/
theorem advance_first_value_is_text (hs : E.sound) (sv : Text) (addr : Nat) (i : Nat)
    (its : List (regex_iterator R)) (L : lua_State R W) (ctl : LuaValue) (g : Generator R)
    (re : R) (hi : i < its.length)
    (hh : L.heap.get? addr = some g) (hlast : g.last = end_of_sequence) (hsv : g.sv = sv)
    (hwf : g.it.pregex = none ∨ (g.it.pregex = some re ∧ g.it.mtch.wf g.it.end_))
    (hseq : iter_seq E sv g.it its) :
    ∃ Li ctl1 vs t,
      advance_n E i L (.userdata addr (some "regex_gmatch")) ctl = .ok (Li, ctl1)
      ∧ (advance E Li (.userdata addr (some "regex_gmatch")) ctl1).map returned = .ok vs
      ∧ vs.head? = some (.string t) := by
  obtain ⟨Li, ctl1, hadv, hret⟩ :=
    advance_n_emits E sv addr i its L ctl g hi hh hlast hsv hseq
  -- every state of the sequence is at a well-formed match
  have hall : ∀ (xs : List (regex_iterator R)) (it : regex_iterator R),
      (it.pregex = none ∨ (it.pregex = some re ∧ it.mtch.wf it.end_)) →
      iter_seq E sv it xs → ∀ x ∈ xs, x.mtch.size ≠ 0 := by
    intro xs
    induction xs with
    | nil => intro _ _ _ x hx; cases hx
    | cons y ys ih =>
      intro it hw hsq x hx
      obtain ⟨hy, hne, hstep⟩ := hsq
      rcases hw with h0 | ⟨hre, hwf1⟩
      · exact absurd h0 hne
      · obtain ⟨it1, hincr, hit1⟩ := incr_wf E hs sv it re hre hwf1
        rw [hincr] at hstep
        rcases List.mem_cons.mp hx with hxy | hxs
        · rw [hxy, hy]
          exact (wf_get_zero it.mtch it.end_ hwf1).2.2.2.2.2.2.2
        · refine ih it1 ?_ hstep x hxs
          rcases hit1 with h1 | ⟨h1, h2, -, h4, -⟩
          · exact Or.inl h1
          · exact Or.inr ⟨h1, by rw [h2]; exact h4⟩
  have hsz := hall its g.it hwf hseq (its.get ⟨i, hi⟩) (List.get_mem _ _ _)
  obtain ⟨hne, htext⟩ := projection_all_text sv (its.get ⟨i, hi⟩).mtch hsz
  cases hp : projection sv (its.get ⟨i, hi⟩).mtch with
  | nil => exact absurd hp hne
  | cons v vs =>
    obtain ⟨t, ht⟩ := htext v (by rw [hp]; exact List.mem_cons_self _ _)
    refine ⟨Li, ctl1, v :: vs, t, hadv, by rw [hret, hp], by rw [ht]; rfl⟩

end generator_text_facts

/-- C18 (the code differs): the loop `for m in regex.gmatch("hello", "x") do ... end` has
no match (T = 0), so its first turn (i = 1 > T) should return nil as its first value,
which ends the loop.  The call of `generator` increments the end-of-sequence iterator
instead, and its behaviour is undefined: no value is returned. -/
theorem C18_first_turn_without_match_is_undefined :
    (advance literal_engine
        (state_of (gmatch literal_engine quiet_host (enter [str "hello", str "x"])) (enter []))
        (.userdata 0 (some "regex_gmatch")) .nil).map returned
      = .error .undefined
    ∧ (advance literal_engine
        (state_of (gmatch literal_engine quiet_host (enter [str "hello", str "x"])) (enter []))
        (.userdata 0 (some "regex_gmatch")) .nil).map returned
      ≠ .ok [.nil] :=
  ⟨rfl, fun h => Except.noConfusion
    ((rfl : (advance literal_engine
        (state_of (gmatch literal_engine quiet_host (enter [str "hello", str "x"])) (enter []))
        (.userdata 0 (some "regex_gmatch")) .nil).map returned
      = .error .undefined).symm.trans h)⟩


/-! ## Negative limits -/

section negative_limit_facts

variable {R W : Type} [DecidableEq R] (E : Engine R) (H : Host W)

/-- An iterator is equal to itself. -/
theorem eq_self (buf : Text) (a : regex_iterator R) : regex_iterator.eq buf a a = true := by
  unfold regex_iterator.eq
  split <;> simp

/-- With a limit that is negative as an `int`, `gsub` does not enter its loop: it returns
the subject argument itself and the count 0, and calls nothing in the host, however many
matches the subject has. -/
theorem gsub_negative_limit (L L2 : lua_State R W) (s : Text) (re : R) (N0 : Int)
    (fuel : Nat)
    (h1 : index2value L 1 = some (.string s))
    (hre : get_regex E H L = .ok (re, L2))
    (hrepl : lua_isstring L 3 = true ∨ lua_isfunction L 3 = true ∨ lua_istable L 3 = true)
    (hN : luaL_optinteger H L 4 0 = .ok N0) (hneg : to_int N0 < 0)
    (hfuel : 1 ≤ fuel) :
    gsub E H fuel L = .ok (2, pushes L2 [.string s, .integer 0])
    ∧ returned (2, pushes L2 [.string s, .integer 0]) = [.string s, .integer 0]
    ∧ L2.events = L.events ∧ L2.world = L.world := by
  have hf := get_regex_frame E H L L2 re hre
  have i1 : index2value L2 1 = some (.string s) :=
    (get_regex_index E H L L2 re hre 1 (by omega) (by omega)).trans h1
  have i3 : index2value L2 3 = index2value L 3 :=
    get_regex_index E H L L2 re hre 3 (by omega) (by omega)
  have i4 : index2value L2 ((4 : Nat) : Int) = index2value L ((4 : Nat) : Int) :=
    get_regex_index E H L L2 re hre 4 (by omega) (by omega)
  have hrepl2 : ¬ (lua_isstring L2 3 = false ∧ lua_isfunction L2 3 = false
      ∧ lua_istable L2 3 = false) := by
    have e1 : lua_isstring L2 3 = lua_isstring L 3 := by simp only [lua_isstring, i3]
    have e2 : lua_isfunction L2 3 = lua_isfunction L 3 := by
      simp only [lua_isfunction, lua_type, i3]
    have e3 : lua_istable L2 3 = lua_istable L 3 := by simp only [lua_istable, lua_type, i3]
    rw [e1, e2, e3]
    rintro ⟨a, b, c⟩
    rcases hrepl with h | h | h
    · rw [a] at h; cases h
    · rw [b] at h; cases h
    · rw [c] at h; cases h
  have hN2 : luaL_optinteger H L2 4 0 = .ok N0 := by
    rw [← hN]
    simp only [luaL_optinteger, i4]
  refine ⟨?_, returned_pushes L2 [.string s, .integer 0], hf.2.2.1, hf.1⟩
  obtain ⟨f, rfl⟩ : ∃ f, fuel = f + 1 := ⟨fuel - 1, by omega⟩
  have hcs : luaL_checkstring H L 1 = .ok (s, L) := luaL_checkstring_string H L 1 s h1
  have hlim : ¬ (to_int N0 = 0 ∨ (0 : Int) < to_int N0) := by omega
  simp only [gsub, hcs, hre, hrepl2, if_false, hN2, gsub_loop, hlim, and_false, eq_self,
    Bool.true_eq_false, lt_self_iff_false, gt_iff_lt]
  simp [lua_pushvalue, i1, lua_pushinteger, push, pushes]

end negative_limit_facts

/-- C19 (the code differs): `regex.gsub("aaa", "a", "b", -4294967296)` has a negative
maxCount, yet it replaces all three matches and returns "bbb" and 3: the limit is stored
in an `int`, where it is 0, and 0 means no limit. -/
theorem C19_gsub_narrows_negative_limit :
    (gsub literal_engine quiet_host 4
      (enter [str "aaa", str "a", str "b", .integer (-4294967296)])).map returned
      = .ok [str "bbb", .integer 3] := rfl

/-- With the limit -1 nothing is replaced: the subject and 0. -/
theorem gsub_aaa_limit_minus_one :
    (gsub literal_engine quiet_host 4
      (enter [str "aaa", str "a", str "b", .integer (-1)])).map returned
      = .ok [str "aaa", .integer 0] := rfl


/-! ## Offsets and long subjects -/

section offset_facts

variable {R W : Type} (E : Engine R) (H : Host W)

/-- For a subject whose length fits an `int` the offset `get_init` resolves, whatever the
start, lies between 0 and the length of the subject; and `get_init` resolves one
whenever the start is an integer or is omitted. -/
theorem get_init_bounds (L : lua_State R W) (s : Text) (I : Int)
    (h1 : index2value L 1 = some (.string s)) (hs : (s.length : Int) ≤ INT_MAX)
    (hopt : luaL_optinteger H L 3 1 = .ok I) :
    ∃ o, get_init H L = .ok o ∧ 0 ≤ o ∧ o ≤ (s.length : Int) := by
  have hlen : to_int (s.length : Int) = s.length :=
    to_int_of_range (by unfold INT_MIN; omega) hs
  have h1n : index2value L ((1 : Nat) : Int) = some (.string s) := h1
  obtain ⟨b1, b2⟩ := to_int_bounds I
  simp only [get_init, hopt, luaL_len, h1n, hlen]
  unfold INT_MIN at *
  unfold INT_MAX at *
  by_cases hp : to_int I > 0
  · simp only [hp, if_true]
    by_cases hle : to_int I ≤ (s.length : Int)
    · simp only [hle, if_true]
      exact ⟨_, rfl, by omega, by omega⟩
    · simp only [hle, if_false]
      exact ⟨_, rfl, by omega, by omega⟩
  · have hnu : ¬ (to_int I < 0 ∧ to_int I + (s.length : Int) < -2147483648) := by omega
    simp only [hp, if_false, hnu]
    by_cases hneg : to_int I < 0
    · simp only [hneg, if_true]
      by_cases hin : to_int I + (s.length : Int) > 0
          ∧ to_int I + (s.length : Int) < (s.length : Int)
      · simp only [hin, and_self, if_true]
        exact ⟨_, rfl, by omega, by omega⟩
      · simp only [hin, if_false]
        exact ⟨_, rfl, by omega, by omega⟩
    · simp only [hneg, if_false]
      have hz : ¬ (to_int I > 0 ∧ to_int I < (s.length : Int)) := by omega
      simp only [hz, if_false]
      exact ⟨_, rfl, by omega, by omega⟩

/-- For a subject of 2147483648 bytes and an omitted start, `get_init` resolves the
offset -2147483648: the length does not fit the `int` it is stored in. -/
theorem get_init_long_subject (L : lua_State R W) (s : Text)
    (h1 : index2value L 1 = some (.string s)) (h3 : index2value L 3 = none)
    (hlen : s.length = 2147483648) :
    get_init H L = .ok (-2147483648) := by
  have h1n : index2value L ((1 : Nat) : Int) = some (.string s) := h1
  have h3n : index2value L ((3 : Nat) : Int) = none := h3
  have e1 : to_int 1 = 1 := by decide
  have e2 : to_int ((s.length : Nat) : Int) = -2147483648 := by
    rw [hlen]
    decide
  simp only [get_init, luaL_optinteger, h3n, luaL_len, h1n, e1, e2]
  norm_num

/-- For the same subject and the start 0, `get_init` resolves the offset 0. -/
theorem get_init_long_subject_zero (L : lua_State R W) (s : Text)
    (h1 : index2value L 1 = some (.string s)) (h3 : index2value L 3 = some (.integer 0))
    (hlen : s.length = 2147483648) :
    get_init H L = .ok 0 := by
  have h1n : index2value L ((1 : Nat) : Int) = some (.string s) := h1
  have h3n : index2value L ((3 : Nat) : Int) = some (.integer 0) := h3
  have e1 : to_int 0 = 0 := by decide
  have e2 : to_int ((s.length : Nat) : Int) = -2147483648 := by
    rw [hlen]
    decide
  simp only [get_init, luaL_optinteger, h3n, lua_tointegerx, luaL_len, h1n, e1, e2]
  norm_num

end offset_facts

/-- C16 (the code differs): for a subject of L = 2147483648 bytes, such as
`string.rep("a", 2^31)`, and an omitted start, `get_init` returns -2147483648, which is
not between 0 and L: the length is stored in an `int`. -/
theorem C16_get_init_negative_for_long_subject :
    get_init quiet_host (enter [.string (List.replicate 2147483648 'a'), str "a"])
      = .ok (-2147483648)
    ∧ (List.replicate 2147483648 'a').length = 2147483648 :=
  ⟨get_init_long_subject quiet_host _ _ rfl rfl (List.length_replicate _ _),
    List.length_replicate _ _⟩

/-- For a subject with a NUL byte the resolved offset can lie beyond the subject as
`search` reads it: in `regex.find("a\0bc", "c", 4)` the offset is 3, the view of the
subject has one character, and moving the start of the search there is undefined. -/
theorem search_beyond_the_c_string :
    get_init quiet_host (enter [.string ['a', NUL, 'b', 'c'], str "c", .integer 4]) = .ok 3
    ∧ (c_str ['a', NUL, 'b', 'c']).length = 1
    ∧ search literal_engine quiet_host
        (enter [.string ['a', NUL, 'b', 'c'], str "c", .integer 4]) = .error .undefined :=
  ⟨rfl, rfl, rfl⟩


/-! ## What `find` returns -/

section find_facts

variable {R W : Type} (E : Engine R) (H : Host W)

/-- For a pattern that is a string and compiles, `get_regex` returns the regex and leaves
the state as it is. -/
theorem get_regex_string (L : lua_State R W) (p : Text) (re : R)
    (h2 : index2value L 2 = some (.string p)) (hc : E.compile (c_str p) = .ok re) :
    get_regex E H L = .ok (re, L) := by
  have h2n : index2value L ((2 : Nat) : Int) = some (.string p) := h2
  simp only [get_regex, luaL_checkstring_string H L 2 p h2n, hc]

/-- The search `search` makes, for a subject and a pattern that are strings: from the
resolved offset to the end of the subject as a C string, and undefined when the offset
lies outside it. -/
theorem search_of_offset (L : lua_State R W) (s p : Text) (re : R) (o : Int)
    (h1 : index2value L 1 = some (.string s)) (h2 : index2value L 2 = some (.string p))
    (hc : E.compile (c_str p) = .ok re) (ho : get_init H L = .ok o) :
    search E H L =
      if o < 0 ∨ ((c_str s).length : Int) < o then .error .undefined
      else .ok (regex_search E re (c_str s) o.toNat (c_str s).length match_default,
        c_str s, L) := by
  have h1n : index2value L ((1 : Nat) : Int) = some (.string s) := h1
  simp only [search, luaL_checkstring_string H L 1 s h1n, ho,
    get_regex_string E H L p re h2 hc]

/-- What `find` does after a search that found a match with `k` capture groups. -/
theorem find_on_match (L L1 : lua_State R W) (m : match_results) (sv : Text) (o : Int)
    (k : Nat) (hs : search E H L = .ok (m, sv, L1)) (ho : get_init H L1 = .ok o)
    (hk : m.size = k + 1) :
    find E H L = .ok (2 + k, pushes L1
      ([.integer (o + m.position 0 + 1), .integer (o + m.position 0 + m.length 0)]
        ++ capture_texts sv m k)) := by
  have hlen : (capture_texts sv m k).length = k := by simp [capture_texts]
  have hpr : push_results L1 sv m true = (k, pushes L1 (capture_texts sv m k)) := by
    rcases Nat.eq_zero_or_pos k with h0 | h1
    · subst h0
      rw [push_results_only_subs_none L1 sv m hk]
      simp [capture_texts, pushes]
    · exact push_results_captures L1 sv m true k h1 hk
  have hnil : ¬ (k = 1 ∧ lua_isnil (pushes L1 (capture_texts sv m k)) (-1) = true) := by
    rintro ⟨h1, h2⟩
    subst h1
    have : capture_texts sv m 1 = [] ++ [.string (slot_text sv m 1)] := by
      simp [capture_texts]
    rw [this, lua_isnil_pushes_string] at h2
    cases h2
  have hst1 : (lua_pushinteger (pushes L1 (capture_texts sv m k))
      (o + m.position 0 + 1)).stack
      = L1.stack ++ capture_texts sv m k ++ [.integer (o + m.position 0 + 1)] := by
    simp [lua_pushinteger, push, pushes]
  have hi1 := lua_insert_below _ _ _ _ hst1
  rw [hlen] at hi1
  have hst2 : (lua_pushinteger ({ lua_pushinteger (pushes L1 (capture_texts sv m k))
        (o + m.position 0 + 1) with
          stack := L1.stack ++ .integer (o + m.position 0 + 1) :: capture_texts sv m k }
        : lua_State R W) (o + m.position 0 + m.length 0)).stack
      = (L1.stack ++ [.integer (o + m.position 0 + 1)]) ++ capture_texts sv m k
        ++ [.integer (o + m.position 0 + m.length 0)] := by
    simp [lua_pushinteger, push]
  have hi2 := lua_insert_below _ _ _ _ hst2
  rw [hlen] at hi2
  simp only [find, hs, ho, hpr, hnil, if_false, hi1, hi2]
  simp [pushes, lua_pushinteger, push]

/-- What `find` does after a search that found nothing. -/
theorem find_on_no_match (L L1 : lua_State R W) (m : match_results) (sv : Text) (o : Int)
    (hs : search E H L = .ok (m, sv, L1)) (ho : get_init H L1 = .ok o) (hm : m.size = 0) :
    find E H L = .ok (1, pushes L1 [.nil]) := by
  have hnil : lua_isnil (pushes L1 [.nil]) (-1) = true := by
    simp [lua_isnil, lua_type, index2value_top, pushes, LuaValue.type]
  simp only [find, hs, ho, push_results_no_match L1 sv m true hm, hnil, and_self, if_true]

/-- The values `find` returns, for a subject and a pattern that are strings and an offset
inside the subject as a C string: they depend on the subject, the pattern and the offset
only. -/
theorem find_of_offset (L : lua_State R W) (s p : Text) (re : R) (o : Int)
    (h1 : index2value L 1 = some (.string s)) (h2 : index2value L 2 = some (.string p))
    (hc : E.compile (c_str p) = .ok re) (ho : get_init H L = .ok o)
    (h0 : 0 ≤ o) (hle : o ≤ ((c_str s).length : Int)) :
    (find E H L).map returned = .ok (find_values E re (c_str s) o) := by
  have hrange : ¬ (o < 0 ∨ ((c_str s).length : Int) < o) := by omega
  have hs := search_of_offset E H L s p re o h1 h2 hc ho
  simp only [hrange, if_false] at hs
  unfold find_values
  simp only
  by_cases hm : (regex_search E re (c_str s) o.toNat (c_str s).length match_default).size = 0
  · rw [find_on_no_match E H L L _ _ o hs ho hm]
    simp only [hm, if_true, Except.map]
    exact congrArg Except.ok (returned_pushes L [.nil])
  · have hk : (regex_search E re (c_str s) o.toNat (c_str s).length match_default).size
        = ((regex_search E re (c_str s) o.toNat (c_str s).length match_default).size - 1) + 1
        := by omega
    rw [find_on_match E H L L _ _ o _ hs ho hk]
    simp only [hm, if_false, Except.map]
    refine congrArg Except.ok ?_
    have hl : 2 + ((regex_search E re (c_str s) o.toNat (c_str s).length match_default).size
        - 1) = ([LuaValue.integer (o + (regex_search E re (c_str s) o.toNat
          (c_str s).length match_default).position 0 + 1),
          .integer (o + (regex_search E re (c_str s) o.toNat
            (c_str s).length match_default).position 0
            + (regex_search E re (c_str s) o.toNat (c_str s).length match_default).length 0)]
          ++ capture_texts (c_str s) (regex_search E re (c_str s) o.toNat
            (c_str s).length match_default)
            ((regex_search E re (c_str s) o.toNat (c_str s).length match_default).size
              - 1)).length := by
      simp [capture_texts]
      omega
    rw [hl]
    exact returned_pushes L _

/-- For a subject shorter than 2147483648 bytes, `find` with the start 0 and `find` with
the start omitted return the same values. -/
theorem find_start_zero_same (L0 Ln : lua_State R W) (s p : Text) (re : R)
    (h1 : index2value L0 1 = some (.string s)) (h2 : index2value L0 2 = some (.string p))
    (h3 : index2value L0 3 = some (.integer 0))
    (g1 : index2value Ln 1 = some (.string s)) (g2 : index2value Ln 2 = some (.string p))
    (g3 : index2value Ln 3 = none)
    (hc : E.compile (c_str p) = .ok re) (hs : (s.length : Int) ≤ INT_MAX) :
    (find E H L0).map returned = (find E H Ln).map returned := by
  have e0 : get_init H L0 = .ok 0 := by
    rw [get_init_in_range H L0 s 0 h1 h3 (by unfold INT_MIN INT_MAX; omega) hs]
    simp [resolved_offset]
  have en : get_init H Ln = .ok 0 := by
    rw [get_init_omitted H Ln s g1 g3 hs]
    refine congrArg Except.ok ?_
    unfold resolved_offset
    have : min (1 : Int) ((s.length : Int) + 1) = 1 := by omega
    simp [this]
  rw [find_of_offset E H L0 s p re 0 h1 h2 hc e0 (le_refl _) (by omega),
    find_of_offset E H Ln s p re 0 g1 g2 hc en (le_refl _) (by omega)]

/-- For a subject of 2147483648 bytes and an omitted start the search of `find` starts
at the offset -2147483648: its behaviour is undefined. -/
theorem find_long_subject (L : lua_State R W) (s p : Text) (re : R)
    (h1 : index2value L 1 = some (.string s)) (h2 : index2value L 2 = some (.string p))
    (h3 : index2value L 3 = none) (hc : E.compile (c_str p) = .ok re)
    (hlen : s.length = 2147483648) :
    find E H L = .error .undefined := by
  have ho := get_init_long_subject H L s h1 h3 hlen
  have hs := search_of_offset E H L s p re _ h1 h2 hc ho
  have hneg : (-2147483648 : Int) < 0 ∨ ((c_str s).length : Int) < -2147483648 :=
    Or.inl (by decide)
  simp only [hneg, if_true] at hs
  simp only [find, hs]

/-- For the same subject and the start 0, `find` searches from the offset 0 and returns
values. -/
theorem find_long_subject_zero (L : lua_State R W) (s p : Text) (re : R)
    (h1 : index2value L 1 = some (.string s)) (h2 : index2value L 2 = some (.string p))
    (h3 : index2value L 3 = some (.integer 0)) (hc : E.compile (c_str p) = .ok re)
    (hlen : s.length = 2147483648) :
    (find E H L).map returned = .ok (find_values E re (c_str s) 0) :=
  find_of_offset E H L s p re 0 h1 h2 hc (get_init_long_subject_zero H L s h1 h3 hlen)
    (le_refl _) (by omega)

end find_facts

/-- C15 (the code differs): for a subject of 2147483648 bytes, such as
`string.rep("a", 2^31)`, `regex.find(s, "a", 0)` searches from the offset 0 and returns
values, while `regex.find(s, "a")` resolves the offset -2147483648 (the length is stored
in an `int`) and its search is undefined. -/
theorem C15_find_omitted_start_differs_for_long_subject :
    (find literal_engine quiet_host
        (enter [.string (List.replicate 2147483648 'a'), str "a", .integer 0])).map returned
      = .ok (find_values literal_engine [(false, "a".toList)]
          (c_str (List.replicate 2147483648 'a')) 0)
    ∧ find literal_engine quiet_host (enter [.string (List.replicate 2147483648 'a'), str "a"])
      = .error .undefined :=
  ⟨find_long_subject_zero literal_engine quiet_host _ _ "a".toList _ rfl rfl rfl rfl
      (List.length_replicate _ _),
    find_long_subject literal_engine quiet_host _ _ "a".toList _ rfl rfl rfl rfl
      (List.length_replicate _ _)⟩


section view_facts

/-- The subject as a C string is a prefix of the subject. -/
theorem c_str_append (s : Text) : ∃ rest, s = c_str s ++ rest :=
  ⟨s.dropWhile (fun c => c != NUL), (List.takeWhile_append_dropWhile _ s).symm⟩

theorem c_str_length_le (s : Text) : (c_str s).length ≤ s.length := by
  obtain ⟨rest, h⟩ := c_str_append s
  have := congrArg List.length h
  simp only [List.length_append] at this
  omega

/-- A slice that lies inside a prefix of a text is the same slice of the text. -/
theorem slice_of_prefix (sv rest : Text) (first n : Nat) (h : first + n ≤ sv.length) :
    slice (sv ++ rest) first n = slice sv first n := by
  unfold slice
  rw [List.drop_append_of_le_length (by omega), List.take_append_of_le_length]
  simp only [List.length_drop]
  omega

end view_facts

section claims_find

variable {R W : Type} (E : Engine R) (H : Host W)

/-- C17: when `find` succeeds on a match that lies within the range it searched, from
the resolved offset `o` to the end of the subject as a C string (the whole subject of
length `L` when it has no NUL byte), the positions it returns satisfy `o + 1 ≤ start`,
`start ≤ end + 1` and `end ≤ L`, and the characters of the subject at the 1-based
positions `start..end` are the whole-match text (empty when `end = start - 1`). -/
theorem C17_find_positions_delimit_the_match (L L1 : lua_State R W) (s : Text)
    (m : match_results) (sv : Text) (o : Int) (k : Nat)
    (h1 : index2value L 1 = some (.string s))
    (hs : search E H L = .ok (m, sv, L1)) (ho : get_init H L1 = .ok o)
    (hk : m.size = k + 1)
    (hin : o ≤ ((m.get 0).first : Int) ∧ (m.get 0).first ≤ (m.get 0).second
      ∧ (m.get 0).second ≤ sv.length) :
    ∃ start stop : Int,
      find E H L = .ok (2 + k, pushes L1
        ([.integer start, .integer stop] ++ capture_texts sv m k))
      ∧ o + 1 ≤ start ∧ start ≤ stop + 1 ∧ stop ≤ (s.length : Int)
      ∧ slice s (start - 1).toNat (stop - start + 1).toNat = slot_text sv m 0 := by
  obtain ⟨s1, L0, re, init, hcs, hsv, -, hinit, h0, -, hm⟩ := search_ok_elim E H L L1 m sv hs
  have h1n : index2value L ((1 : Nat) : Int) = some (.string s) := h1
  rw [luaL_checkstring_string H L 1 s h1n] at hcs
  have hs1 : s = s1 := (Prod.mk.inj (Except.ok.inj hcs)).1
  subst hs1
  have ho2 : init = o := Except.ok.inj (hinit.symm.trans ho)
  subst ho2
  -- slot 0 of the match and the base of its positions
  have hbase : m.base = init.toNat := by
    rw [hm]
    unfold regex_search
    split <;> rfl
  have hmatched : (m.get 0).matched = true := by
    have hsz : m.size ≠ 0 := by omega
    rw [hm] at hsz ⊢
    unfold regex_search at hsz ⊢
    split
    · rename_i hnone
      simp [hnone, match_results.size] at hsz
    · rfl
  obtain ⟨a, b, c⟩ := hin
  have hpos : m.position 0 = ((m.get 0).first : Int) - init := by
    unfold match_results.position
    rw [hbase]
    omega
  have hlen : (m.length 0 : Int) = ((m.get 0).second : Int) - (m.get 0).first := by
    simp only [match_results.length, sub_match.length, hmatched, if_true]
    omega
  have hle := c_str_length_le s
  refine ⟨(m.get 0).first + 1, (m.get 0).second, ?_, by omega, by omega, ?_, ?_⟩
  · rw [find_on_match E H L L1 m sv init k hs ho hk, hpos, hlen]
    have e1 : init + (((m.get 0).first : Int) - init) + 1 = (m.get 0).first + 1 := by omega
    have e2 : init + (((m.get 0).first : Int) - init)
        + (((m.get 0).second : Int) - (m.get 0).first) = (m.get 0).second := by omega
    rw [e1, e2]
  · rw [hsv] at c
    omega
  · have e1 : (((m.get 0).first : Int) + 1 - 1).toNat = (m.get 0).first := by omega
    have e2 : (((m.get 0).second : Int) - ((m.get 0).first + 1) + 1).toNat
        = (m.get 0).second - (m.get 0).first := by omega
    rw [e1, e2]
    obtain ⟨rest, hrest⟩ := c_str_append s
    have hslot : slot_text sv m 0
        = slice sv (m.get 0).first ((m.get 0).second - (m.get 0).first) := by
      simp only [slot_text, sub_match.length, hmatched, if_true]
    rw [hslot, hsv]
    conv_lhs => rw [hrest]
    exact slice_of_prefix (c_str s) rest _ _ (by rw [hsv] at c; omega)

end claims_find

/-- The call `regex.find("hello world", "wor")`: the positions 7 and 9 delimit "wor" in
the subject. -/
theorem C17_find_witness :
    ∃ start stop : Int,
      find literal_engine quiet_host (enter [str "hello world", str "wor"])
        = .ok (2 + 0, pushes (enter [str "hello world", str "wor"])
            ([.integer start, .integer stop] ++ capture_texts "hello world".toList
              (regex_search literal_engine [(false, "wor".toList)] "hello world".toList 0 11
                match_default) 0))
      ∧ 0 + 1 ≤ start ∧ start ≤ stop + 1 ∧ stop ≤ ("hello world".toList.length : Int)
      ∧ slice "hello world".toList (start - 1).toNat (stop - start + 1).toNat
          = slot_text "hello world".toList
              (regex_search literal_engine [(false, "wor".toList)] "hello world".toList 0 11
                match_default) 0 :=
  C17_find_positions_delimit_the_match literal_engine quiet_host
    (enter [str "hello world", str "wor"]) (enter [str "hello world", str "wor"])
    "hello world".toList
    (regex_search literal_engine [(false, "wor".toList)] "hello world".toList 0 11
      match_default)
    "hello world".toList 0 0 rfl rfl rfl rfl (by decide)


section answer_facts

variable {R W : Type} (E : Engine R) (H : Host W)

theorem index2value_three (L : lua_State R W) (repl : LuaValue)
    (hidx : index2value L 3 = some repl) :
    L.stack.get? 2 = some repl ∧ 3 ≤ L.stack.length := by
  have hget : L.stack.get? 2 = some repl := by
    have := index2value_pos L 3 (by omega)
    rw [show ((3 : Nat) : Int) = 3 from rfl, hidx] at this
    exact this.symm
  refine ⟨hget, ?_⟩
  by_contra hc
  rw [List.get?_eq_none.mpr (by omega)] at hget
  cases hget

/-- The lookup of `gsub` in a table replacement: of the values `vs` pushed for the match
all but the first are popped, and the table at index 3 is indexed with the first. -/
theorem gettable_after_projection (L : lua_State R W) (repl : LuaValue)
    (vs : List LuaValue) (hvs : vs ≠ []) (hidx : index2value L 3 = some repl) :
    lua_pop (pushes L vs) (vs.length - 1) = pushes L [vs.headD .nil]
    ∧ lua_gettable H (pushes L [vs.headD .nil]) 3 =
      match H.gettable L.world repl (vs.headD .nil) with
      | .error e => .error (.raised e)
      | .ok (v, w1) => .ok (pushes (after_host L w1 (.gettable repl (vs.headD .nil))) [v]) := by
  obtain ⟨v0, rest, rfl⟩ : ∃ v0 rest, vs = v0 :: rest := by
    cases vs with
    | nil => exact absurd rfl hvs
    | cons a l => exact ⟨a, l, rfl⟩
  obtain ⟨hget, h3⟩ := index2value_three L repl hidx
  simp only [List.headD_cons]
  constructor
  · have e : (L.stack ++ v0 :: rest).length - ((v0 :: rest).length - 1)
        = L.stack.length + 1 := by simp; omega
    simp only [lua_pop, pushes, e]
    rw [List.take_append_eq_append_take]
    simp
  · have hi3 : index2value (pushes L [v0]) 3 = some repl := by
      have := index2value_pos (pushes L [v0]) 3 (by omega)
      rw [show ((3 : Nat) : Int) = 3 from rfl] at this
      rw [this]
      simp only [pushes]
      rw [List.get?_eq_getElem?, List.getElem?_append_left (by omega), ← List.get?_eq_getElem?]
      exact hget
    have hlast : (pushes L [v0]).stack.getLast? = some v0 := by simp [pushes]
    have hdl : (pushes L [v0]).stack.dropLast = L.stack := by simp [pushes]
    have hw : (pushes L [v0]).world = L.world := rfl
    unfold lua_gettable
    simp only [hi3, hlast, hdl, Option.getD_some, hw]
    cases H.gettable L.world repl v0 with
    | error e => rfl
    | ok r => rfl

/-- The call of `gsub` to a function replacement: the function at index 3 is called with
the values `vs` pushed for the match, and its first result replaces them. -/
theorem call_after_projection (L : lua_State R W) (repl : LuaValue)
    (vs : List LuaValue) (hidx : index2value L 3 = some repl) :
    lua_call H (pushes (lua_pushvalue L 3) vs) vs.length =
      match H.call L.world repl vs with
      | .error e => .error (.raised e)
      | .ok (rs, w1) => .ok (pushes (after_host L w1 (.call repl vs)) [rs.headD .nil]) := by
  have hpv : lua_pushvalue L 3 = pushes L [repl] := by
    simp [lua_pushvalue, hidx, push, pushes]
  rw [hpv]
  have e1 : (L.stack ++ [repl] ++ vs).length - (vs.length + 1) = L.stack.length := by
    simp
  have e2 : (L.stack ++ [repl] ++ vs).length - vs.length = (L.stack ++ [repl]).length := by
    simp
    omega
  have e3 : (L.stack ++ [repl] ++ vs).get? L.stack.length = some repl := by
    rw [List.append_assoc, List.get?_eq_getElem?, List.getElem?_append_right (le_refl _)]
    simp
  have e4 : (L.stack ++ [repl] ++ vs).take L.stack.length = L.stack := by
    rw [List.append_assoc, List.take_left]
  have e5 : (L.stack ++ [repl] ++ vs).drop (L.stack ++ [repl]).length = vs :=
    List.drop_left _ _
  have hw : (pushes (pushes L [repl]) vs).world = L.world := rfl
  have hst : (pushes (pushes L [repl]) vs).stack = L.stack ++ [repl] ++ vs := rfl
  unfold lua_call
  simp only [hst, e1, e2, e3, e4, e5, hw, Option.getD_some]
  cases H.call L.world repl vs with
  | error e => rfl
  | ok r => rfl

/-- The value on top of the stack is what `lua_toboolean`, `lua_isstring`,
`luaL_typename` and `lua_tolstring` at index -1 look at; popping it gives the stack
below, also after `lua_tolstring` converted a number in place. -/
theorem top_value_facts (L : lua_State R W) (v : LuaValue) :
    lua_toboolean (pushes L [v]) (-1) = v.truthy
    ∧ lua_isstring (pushes L [v]) (-1) = v.isstring
    ∧ lua_type (pushes L [v]) (-1) = v.type
    ∧ lua_pop (pushes L [v]) 1 = L
    ∧ (v.isstring = true → (lua_tolstring H (pushes L [v]) (-1)).1 = lua_tostring H v)
    ∧ lua_pop (lua_tolstring H (pushes L [v]) (-1)).2 1 = L := by
  have htop : index2value (pushes L [v]) (-1) = some v := by
    rw [index2value_top]
    simp [pushes]
  have hpop : lua_pop (pushes L [v]) 1 = L := by
    cases L
    simp [lua_pop, pushes]
  refine ⟨by simp only [lua_toboolean, htop], by simp only [lua_isstring, htop],
    by simp only [lua_type, htop], hpop, ?_, ?_⟩
  · intro _
    unfold lua_tolstring
    rw [htop]
    cases v <;> rfl
  · unfold lua_tolstring
    rw [htop]
    have hset : ∀ x : LuaValue,
        lua_pop ({ pushes L [v] with
          stack := (pushes L [v]).stack.set (lua_absindex (pushes L [v]) (-1) - 1).toNat x }
            : lua_State R W) 1 = L := by
      intro x
      have ei : (lua_absindex (pushes L [v]) (-1) - 1).toNat = L.stack.length := by
        simp only [lua_absindex, pushes, List.length_append, List.length_singleton]
        have : ¬ ((-1 : Int) > 0) := by omega
        simp only [this, if_false]
        push_cast
        omega
      rw [ei]
      cases L
      simp [lua_pop, pushes]
    cases v <;> first | exact hpop | exact hset _

end answer_facts


section body_answer_facts

variable {R W : Type} (E : Engine R) (H : Host W)

/-- One pass through the body of the loop for a callback or a table, in terms of the
answer of the host: an error of the host is raised; an answer that is truthy and not a
string or a number is the error "invalid replacement value"; any other answer counts
the match, appends the answer (or the match itself for nil and false) and leaves the
stack as it was, unless the count is 2147483647 already, when `n++` is undefined. -/
theorem gsub_body_answer (sv : Text) (st : gsub_state R W) (repl : LuaValue)
    (hidx : index2value st.L 3 = some repl)
    (hty : repl.type = .TTABLE ∨ repl.type = .TFUNCTION) :
    gsub_body E H sv repl.type st =
      match host_answer H repl sv st.it.mtch st.L.world with
      | .error e => .error (.raised e)
      | .ok (v, w1) =>
        if v.truthy = true then
          if v.isstring = false then
            .error (.error ("invalid replacement value (a " ++ luaL_typename
              (pushes (after_host st.L w1 (host_event repl sv st.it.mtch)) [v]) (-1) ++ ")"))
          else if st.n < INT_MAX then
            .ok ⟨after_host st.L w1 (host_event repl sv st.it.mtch), st.n + 1,
              (st.result ++ slice sv st.it.mtch.pfx.first st.it.mtch.pfx.length)
                ++ c_str (lua_tostring H v), st.it, st.last_it⟩
          else .error .undefined
        else if st.n < INT_MAX then
          .ok ⟨after_host st.L w1 (host_event repl sv st.it.mtch), st.n + 1,
            (st.result ++ slice sv st.it.mtch.pfx.first st.it.mtch.pfx.length)
              ++ slice sv (st.it.mtch.get 0).first (st.it.mtch.length 0), st.it, st.last_it⟩
        else .error .undefined := by
  have key : ∀ (called : Except Abort (lua_State R W)) (ans : Except LuaValue (LuaValue × W))
      (ev : Event),
      called = (match ans with
        | .error e => .error (.raised e)
        | .ok (v, w1) => .ok (pushes (after_host st.L w1 ev) [v])) →
      (match called with
        | .error e => .error e
        | .ok L2 =>
          if lua_toboolean L2 (-1) = true then
            if lua_isstring L2 (-1) = false then
              .error (.error ("invalid replacement value (a " ++ luaL_typename L2 (-1) ++ ")"))
            else if st.n < INT_MAX then
              .ok ⟨lua_pop (lua_tolstring H L2 (-1)).2 1, st.n + 1,
                (st.result ++ slice sv st.it.mtch.pfx.first st.it.mtch.pfx.length)
                  ++ c_str (lua_tolstring H L2 (-1)).1, st.it, st.last_it⟩
            else .error .undefined
          else if st.n < INT_MAX then
            .ok ⟨lua_pop L2 1, st.n + 1,
              (st.result ++ slice sv st.it.mtch.pfx.first st.it.mtch.pfx.length)
                ++ slice sv (st.it.mtch.get 0).first (st.it.mtch.length 0), st.it, st.last_it⟩
          else .error .undefined)
      = (match ans with
        | .error e => (.error (.raised e) : Except Abort (gsub_state R W))
        | .ok (v, w1) =>
          if v.truthy = true then
            if v.isstring = false then
              .error (.error ("invalid replacement value (a " ++ luaL_typename
                (pushes (after_host st.L w1 ev) [v]) (-1) ++ ")"))
            else if st.n < INT_MAX then
              .ok ⟨after_host st.L w1 ev, st.n + 1,
                (st.result ++ slice sv st.it.mtch.pfx.first st.it.mtch.pfx.length)
                  ++ c_str (lua_tostring H v), st.it, st.last_it⟩
            else .error .undefined
          else if st.n < INT_MAX then
            .ok ⟨after_host st.L w1 ev, st.n + 1,
              (st.result ++ slice sv st.it.mtch.pfx.first st.it.mtch.pfx.length)
                ++ slice sv (st.it.mtch.get 0).first (st.it.mtch.length 0),
              st.it, st.last_it⟩
          else .error .undefined) := by
    intro called ans ev hc
    subst hc
    cases ans with
    | error e => rfl
    | ok r =>
      obtain ⟨v, w1⟩ := r
      obtain ⟨t1, t2, -, t4, t5, t6⟩ := top_value_facts H (after_host st.L w1 ev) v
      simp only [t1, t2, t4, t6]
      by_cases hv : v.truthy = true
      · by_cases hs : v.isstring = false
        · simp only [hv, hs, if_true]
        · have hs1 : v.isstring = true := by simpa using hs
          simp only [hv, hs, if_true, if_false, t5 hs1]
      · have hv0 : v.truthy = false := by simpa using hv
        simp only [hv0, Bool.false_eq_true, if_false]
  unfold gsub_body
  simp only [hty, if_true]
  rcases hty with ht | ht
  · obtain ⟨hpop, hgt⟩ := gettable_after_projection H st.L repl (projection sv st.it.mtch)
      (projection_ne_nil sv st.it.mtch) hidx
    simp only [ht, if_true, push_results_projection, hpop, host_answer, host_event]
    exact key _ _ _ hgt
  · have hnt : ¬ repl.type = lua_Type.TTABLE := by rw [ht]; decide
    have hcall := call_after_projection H st.L repl (projection sv st.it.mtch) hidx
    simp only [hnt, if_false, push_results_projection, host_answer, host_event]
    refine (key _ (match H.call st.L.world repl (projection sv st.it.mtch) with
      | .error e => .error e
      | .ok (rs, w1) => .ok (rs.headD .nil, w1)) _ ?_)
    rw [hcall]
    cases H.call st.L.world repl (projection sv st.it.mtch) with
    | error e => rfl
    | ok r => rfl

end body_answer_facts


section lookup_facts

/-- The first value of the projection of a match is the text of the first capture group
when there is one, and the whole-match text otherwise. -/
theorem projection_head (buf : Text) (m : match_results) (k : Nat) (hk : m.size = k + 1) :
    (projection buf m).headD .nil = lookup_key buf m := by
  unfold projection lookup_key
  have h0 : ¬ m.size = 0 := by omega
  simp only [h0, if_false]
  by_cases h1 : m.size = 1
  · have hle : m.size ≤ 1 := by omega
    simp only [h1, if_true, List.headD_cons, le_refl]
  · have hle : ¬ m.size ≤ 1 := by omega
    obtain ⟨j, hj⟩ : ∃ j, m.size - 1 = j + 1 := ⟨m.size - 2, by omega⟩
    simp only [h1, hle, if_false, capture_texts, hj, List.range'_succ, List.map_cons,
      List.headD_cons]

end lookup_facts

section claims_lookup

variable {R W : Type} (E : Engine R) (H : Host W)

/-- C14: for a table replacement, one pass of the loop of `gsub` over a match leaves, of
the values pushed for the match, only the first on the stack (all other captures are
popped before the lookup), and that value is the text of the first capture group when
the pattern has capture groups and the whole-match text when it has none; the table is
indexed with exactly this key, and the outcome of the pass is decided by what the
lookup answers (and, for an answer that is kept, by whether the `int` count can still be
incremented). -/
theorem C14_table_key_is_first_capture_or_whole_match (sv : Text) (st : gsub_state R W)
    (repl : LuaValue) (k : Nat)
    (hidx : index2value st.L 3 = some repl) (hty : repl.type = .TTABLE)
    (hk : st.it.mtch.size = k + 1) :
    lua_pop (push_results st.L sv st.it.mtch false).2
        ((push_results st.L sv st.it.mtch false).1 - 1)
      = pushes st.L [lookup_key sv st.it.mtch]
    ∧ gsub_body E H sv .TTABLE st =
      match H.gettable st.L.world repl (lookup_key sv st.it.mtch) with
      | .error e => .error (.raised e)
      | .ok (v, w1) =>
        if v.truthy = true then
          if v.isstring = false then
            .error (.error ("invalid replacement value (a " ++ luaL_typename
              (pushes (after_host st.L w1 (.gettable repl (lookup_key sv st.it.mtch))) [v])
                (-1) ++ ")"))
          else if st.n < INT_MAX then
            .ok ⟨after_host st.L w1 (.gettable repl (lookup_key sv st.it.mtch)), st.n + 1,
              (st.result ++ slice sv st.it.mtch.pfx.first st.it.mtch.pfx.length)
                ++ c_str (lua_tostring H v), st.it, st.last_it⟩
          else .error .undefined
        else if st.n < INT_MAX then
          .ok ⟨after_host st.L w1 (.gettable repl (lookup_key sv st.it.mtch)), st.n + 1,
            (st.result ++ slice sv st.it.mtch.pfx.first st.it.mtch.pfx.length)
              ++ slice sv (st.it.mtch.get 0).first (st.it.mtch.length 0),
            st.it, st.last_it⟩
        else .error .undefined := by
  have hh := projection_head sv st.it.mtch k hk
  constructor
  · rw [push_results_projection]
    rw [(gettable_after_projection H st.L repl (projection sv st.it.mtch)
      (projection_ne_nil sv st.it.mtch) hidx).1, hh]
  · have hb := gsub_body_answer E H sv st repl hidx (Or.inl hty)
    rw [hty] at hb
    rw [hb]
    simp only [host_answer, host_event, hty, if_true, hh]

end claims_lookup

/-- The first match of "(a)-(b)" in "a-b" against a table that answers "X": of the two
captures "a" and "b" only "a" is kept, the table is indexed with "a", and "X" is
appended. -/
theorem C14_lookup_witness :
    lua_pop (push_results (enter [str "a-b", str "(a)-(b)", .table 0]) "a-b".toList
        (regex_iterator.ctor literal_engine
          [(true, "a".toList), (false, "-".toList), (true, "b".toList)]
          "a-b".toList 0 3).mtch false).2 (2 - 1)
      = pushes (enter [str "a-b", str "(a)-(b)", .table 0]) [str "a"]
    ∧ (gsub_body literal_engine (answering_host (fun _ => str "X")) "a-b".toList .TTABLE
        ⟨enter [str "a-b", str "(a)-(b)", .table 0], 0, [],
          regex_iterator.ctor literal_engine
            [(true, "a".toList), (false, "-".toList), (true, "b".toList)] "a-b".toList 0 3,
          regex_iterator.ctor literal_engine
            [(true, "a".toList), (false, "-".toList), (true, "b".toList)] "a-b".toList 0 3⟩).map
        (fun st1 => (st1.L.stack, st1.L.events, st1.n, st1.result))
      = .ok ([str "a-b", str "(a)-(b)", .table 0], [.gettable (.table 0) (str "a")], 1,
          "X".toList) :=
  ⟨(C14_table_key_is_first_capture_or_whole_match literal_engine
      (answering_host (fun _ => str "X")) "a-b".toList
      ⟨enter [str "a-b", str "(a)-(b)", .table 0], 0, [],
        regex_iterator.ctor literal_engine
          [(true, "a".toList), (false, "-".toList), (true, "b".toList)] "a-b".toList 0 3,
        regex_iterator.ctor literal_engine
          [(true, "a".toList), (false, "-".toList), (true, "b".toList)] "a-b".toList 0 3⟩
      (.table 0) 2 rfl rfl rfl).1,
    rfl⟩


section error_kind_facts

variable {R W : Type} (E : Engine R) (H : Host W)

/-- The errors of `luaL_optinteger` name its own argument. -/
theorem luaL_optinteger_error (L : lua_State R W) (arg : Nat) (d : Int) (e : Abort)
    (h : luaL_optinteger H L arg d = .error e) :
    e = .argerror arg "number has no integer representation" ∨ e = .typeerror arg "number" := by
  unfold luaL_optinteger at h
  split at h
  · cases h
  · cases h
  · split at h
    · cases h
    · split at h
      · cases h
        exact Or.inl rfl
      · cases h
        exact Or.inr rfl

/-- The errors of one pass through the body of the loop: the overflow of the count, an
error raised by the host, or the error of a replacement value. -/
theorem gsub_body_error_kind (sv : Text) (ty : lua_Type) (st : gsub_state R W) (e : Abort)
    (h : gsub_body E H sv ty st = .error e) :
    e = .undefined ∨ (∃ x, e = .raised x) ∨ (∃ msg, e = .error msg) := by
  unfold gsub_body at h
  simp only at h
  by_cases hty : ty = .TTABLE ∨ ty = .TFUNCTION
  · simp only [hty, if_true] at h
    have herr : ∀ e,
        (if ty = lua_Type.TTABLE then
          lua_gettable H (lua_pop (push_results st.L sv st.it.mtch false).2
            ((push_results st.L sv st.it.mtch false).1 - 1)) 3
        else
          lua_call H (push_results (lua_pushvalue st.L 3) sv st.it.mtch false).2
            (push_results (lua_pushvalue st.L 3) sv st.it.mtch false).1) = .error e →
        ∃ x, e = .raised x := by
      intro e he
      split at he
      · unfold lua_gettable at he
        simp only at he
        split at he
        · cases he
          exact ⟨_, rfl⟩
        · cases he
      · unfold lua_call at he
        simp only at he
        split at he
        · cases he
          exact ⟨_, rfl⟩
        · cases he
    generalize (if ty = lua_Type.TTABLE then
          lua_gettable H (lua_pop (push_results st.L sv st.it.mtch false).2
            ((push_results st.L sv st.it.mtch false).1 - 1)) 3
        else
          lua_call H (push_results (lua_pushvalue st.L 3) sv st.it.mtch false).2
            (push_results (lua_pushvalue st.L 3) sv st.it.mtch false).1) = r at herr h
    cases r with
    | error e1 =>
      simp only at h
      cases h
      exact Or.inr (Or.inl (herr e rfl))
    | ok L2 =>
      simp only at h
      split at h
      · split at h
        · cases h
          exact Or.inr (Or.inr ⟨_, rfl⟩)
        · split at h
          · cases h
          · cases h
            exact Or.inl rfl
      · split at h
        · cases h
        · cases h
          exact Or.inl rfl
  · simp only [hty, if_false] at h
    split at h
    · cases h
    · cases h
      exact Or.inl rfl

/-- The count of `gsub` is an `int`: with 2147483647 matches counted, the pass over one
more match with a template replacement ends in the overflow of `n++`. -/
theorem gsub_body_count_overflow (sv : Text) (ty : lua_Type) (st : gsub_state R W)
    (hty : ¬ (ty = .TTABLE ∨ ty = .TFUNCTION)) (hn : st.n = INT_MAX) :
    gsub_body E H sv ty st = .error .undefined := by
  have h : ¬ st.n < INT_MAX := by omega
  simp only [gsub_body, hty, if_false, h]

end error_kind_facts

section loop_error_facts

variable {R W : Type} [DecidableEq R] (E : Engine R) (H : Host W)

/-- The errors of the loop of `gsub`: out of fuel, an error raised by the host, the
error of a replacement value, or undefined behaviour (the increment of an
end-of-sequence iterator, the overflow of the count). -/
theorem gsub_loop_error_kind (sv : Text) (N : Int) (ty : lua_Type) :
    ∀ (fuel : Nat) (st : gsub_state R W) (e : Abort),
      gsub_loop E H sv N ty fuel st = .error e →
      e = .out_of_fuel ∨ e = .undefined ∨ (∃ x, e = .raised x) ∨ (∃ msg, e = .error msg) := by
  intro fuel
  induction fuel with
  | zero =>
    intro st e h
    cases h
    exact Or.inl rfl
  | succ f ih =>
    intro st e h
    unfold gsub_loop at h
    split at h
    · cases hb : gsub_body E H sv ty st with
      | error e1 =>
        rw [hb] at h
        cases h
        rcases gsub_body_error_kind E H sv ty st e hb with he | he | he
        · exact Or.inr (Or.inl he)
        · exact Or.inr (Or.inr (Or.inl he))
        · exact Or.inr (Or.inr (Or.inr he))
      | ok st1 =>
        rw [hb] at h
        simp only at h
        cases hi : st1.it.incr E sv with
        | error e1 =>
          rw [hi] at h
          cases h
          unfold regex_iterator.incr at hi
          split at hi
          · cases hi
            exact Or.inr (Or.inl rfl)
          · simp only at hi
            split at hi
            · split at hi
              · cases hi
              · split at hi <;> cases hi
            · cases hi
        | ok it1 =>
          rw [hi] at h
          exact ih _ e h
    · cases h

end loop_error_facts


section claims_replacement_type

variable {R W : Type} [DecidableEq R] (E : Engine R) (H : Host W)

/-- C13 (amended): for every subject and every pattern that compiles, and whatever the
fuel for the loop (none at all included: the check comes before any matching), `gsub`
fails with the type error on argument 3 if and only if the replacement is not a string
or a number, a function or a table. -/
theorem C13_replacement_type_checked_before_matching (L L1 L2 : lua_State R W) (s : Text)
    (re : R) (fuel : Nat)
    (hcs : luaL_checkstring H L 1 = .ok (s, L1))
    (hre : get_regex E H L1 = .ok (re, L2)) :
    gsub E H fuel L = .error (.typeerror 3 "string/function/table")
      ↔ replacement_accepted (index2value L 3) = false := by
  have i3 : index2value L2 3 = index2value L 3 := by
    have a := get_regex_index E H L1 L2 re hre 3 (by omega) (by omega)
    have b := (luaL_checkstring_frame H L L1 1 s hcs).2.2.2 2 (by omega)
    rw [show ((3 : Nat) : Int) = 3 from rfl] at a
    rw [a]
    have c1 := index2value_pos L1 3 (by omega)
    have c2 := index2value_pos L 3 (by omega)
    rw [show ((3 : Nat) : Int) = 3 from rfl] at c1 c2
    rw [c1, c2]
    exact b
  have hcond : (lua_isstring L2 3 = false ∧ lua_isfunction L2 3 = false
      ∧ lua_istable L2 3 = false) ↔ replacement_accepted (index2value L 3) = false := by
    simp only [lua_isstring, lua_isfunction, lua_istable, lua_type, i3, replacement_accepted]
    cases index2value L 3 with
    | none => simp
    | some v => cases v <;> simp [LuaValue.isstring, LuaValue.type]
  unfold gsub
  simp only [hcs, hre]
  by_cases hc : lua_isstring L2 3 = false ∧ lua_isfunction L2 3 = false
      ∧ lua_istable L2 3 = false
  · simp only [hc, and_self, if_true, true_iff]
    exact hcond.mp hc
  · simp only [hc, if_false]
    have hacc : ¬ replacement_accepted (index2value L 3) = false := fun h => hc (hcond.mpr h)
    refine ⟨fun h => ?_, fun h => absurd h hacc⟩
    exfalso
    cases hN : luaL_optinteger H L2 4 0 with
    | error e =>
      rw [hN] at h
      rcases luaL_optinteger_error H L2 4 0 e hN with he | he
      · rw [he] at h
        cases h
      · rw [he] at h
        cases h
    | ok N0 =>
      rw [hN] at h
      simp only at h
      cases hl : gsub_loop E H (c_str s) (to_int N0) (lua_type L2 3) fuel
        ⟨L2, 0, [], regex_iterator.ctor E re (c_str s) 0 (c_str s).length,
          regex_iterator.ctor E re (c_str s) 0 (c_str s).length⟩ with
      | error e =>
        rw [hl] at h
        rcases gsub_loop_error_kind E H _ _ _ _ _ e hl with he | he | ⟨x, he⟩ | ⟨x, he⟩
          <;> rw [he] at h <;> cases h
      | ok st =>
        rw [hl] at h
        cases h

end claims_replacement_type

/-- The call `regex.gsub("hello", "x", true)`, whose pattern has no match in the
subject, fails with the type error on argument 3. -/
theorem C13_replacement_type_witness :
    gsub literal_engine quiet_host 0 (enter [str "hello", str "x", .boolean true])
      = .error (.typeerror 3 "string/function/table") :=
  (C13_replacement_type_checked_before_matching literal_engine quiet_host
    (enter [str "hello", str "x", .boolean true]) (enter [str "hello", str "x", .boolean true])
    (enter [str "hello", str "x", .boolean true]) "hello".toList [(false, "x".toList)] 0
    rfl rfl).mpr rfl

/-- C13 (as stated, refuted): the number 5 is not a text, a callback or a lookup, yet
`regex.gsub("aaa", "a", 5)` raises no error: `lua_isstring` accepts a number, which is
then used as the template "5", and the call returns "555" and 3. -/
theorem C13_gsub_accepts_a_number_replacement :
    (gsub literal_engine quiet_host 4 (enter [str "aaa", str "a", .integer 5])).map returned
      = .ok [str "555", .integer 3]
    ∧ lua_type (enter [str "aaa", str "a", .integer 5]) 3 = .TNUMBER :=
  ⟨rfl, rfl⟩


section rejects_facts

variable {R W : Type} [DecidableEq R] (E : Engine R) (H : Host W)

/-- For a limit that fits an `int`, the loop of `gsub` is allowed `processed` matches. -/
theorem quota_processed (N0 : Int) (T : Nat) (h0 : INT_MIN ≤ N0) (h1 : N0 ≤ INT_MAX) :
    quota (to_int N0) 0 T = processed N0 T := by
  rw [to_int_of_range h0 h1]
  unfold quota processed
  rcases lt_trichotomy N0 0 with h | h | h
  · have a : ¬ N0 = 0 := by omega
    have b : ¬ N0 > 0 := by omega
    have c : (N0 - 0).toNat = 0 := by omega
    simp only [a, b, c, if_false]
    omega
  · simp [h]
  · have a : ¬ N0 = 0 := by omega
    simp only [a, h, gt_iff_lt, if_true, if_false, sub_zero]

/-- The loop of `gsub` over a callback or a table, when the count of the matches it is
allowed to process fits an `int`, ends with the error "invalid replacement value"
exactly when one of those matches gets an answer that is truthy and neither a string nor
a number. -/
theorem gsub_loop_rejects (sv : Text) (N : Int) (repl : LuaValue)
    (hty : repl.type = .TTABLE ∨ repl.type = .TFUNCTION) :
    ∀ (its : List (regex_iterator R)) (st : gsub_state R W) (fuel : Nat),
      iter_seq E sv st.it its → its.length < fuel → index2value st.L 3 = some repl →
      st.n + (quota N st.n its.length : Int) ≤ INT_MAX →
      ((∃ tn, gsub_loop E H sv N repl.type fuel st
          = .error (.error ("invalid replacement value (a " ++ tn ++ ")")))
        ↔ rejects H repl sv st.L.world
            ((its.take (quota N st.n its.length)).map (fun it => it.mtch)) = true) := by
  intro its
  induction its with
  | nil =>
    intro st fuel hseq hfuel hidx _
    obtain ⟨f, rfl⟩ : ∃ f, fuel = f + 1 := ⟨fuel - 1, by omega⟩
    have hnone : st.it.pregex = none := hseq
    have hloop : gsub_loop E H sv N repl.type (f + 1) st = .ok st := by
      simp [gsub_loop, eq_end_of_sequence, hnone]
    rw [hloop]
    constructor
    · rintro ⟨tn, h⟩
      cases h
    · intro h
      simp [rejects] at h
  | cons x xs ih =>
    intro st fuel hseq hfuel hidx hmax
    obtain ⟨f, rfl⟩ : ∃ f, fuel = f + 1 := ⟨fuel - 1, by omega⟩
    obtain ⟨hx, hne, hstep⟩ := hseq
    subst hx
    have hc : regex_iterator.eq sv st.it end_of_sequence = false := by
      rw [eq_end_of_sequence]
      simp [hne]
    by_cases hlim : N = 0 ∨ st.n < N
    · have hq : ((st.it :: xs).take (quota N st.n (st.it :: xs).length)).map
          (fun it => it.mtch)
          = st.it.mtch :: (xs.take (quota N (st.n + 1) xs.length)).map (fun it => it.mtch) := by
        rw [List.length_cons, quota_step N st.n xs.length hlim, List.take_succ_cons,
          List.map_cons]
      rw [hq]
      have hmax1 : st.n + 1 + (quota N (st.n + 1) xs.length : Int) ≤ INT_MAX := by
        rw [List.length_cons, quota_step N st.n xs.length hlim] at hmax
        push_cast at hmax
        omega
      have hcnt : st.n < INT_MAX := by omega
      have hb := gsub_body_answer E H sv st repl hidx hty
      cases hans : host_answer H repl sv st.it.mtch st.L.world with
      | error e =>
        rw [hans] at hb
        have hloop : gsub_loop E H sv N repl.type (f + 1) st = .error (.raised e) := by
          simp only [gsub_loop, hc, hlim, and_self, if_true, hb]
        rw [hloop]
        constructor
        · rintro ⟨tn, h⟩
          cases h
        · intro h
          simp [rejects, hans] at h
      | ok r =>
        obtain ⟨v, w1⟩ := r
        rw [hans] at hb
        simp only at hb
        by_cases hrej : (v.truthy && !v.isstring) = true
        · have hv : v.truthy = true := by
            cases ht : v.truthy
            · rw [ht] at hrej
              simp at hrej
            · rfl
          have hs : v.isstring = false := by
            cases hi : v.isstring
            · rfl
            · rw [hi, hv] at hrej
              simp at hrej
          simp only [hv, hs, if_true] at hb
          have hloop : gsub_loop E H sv N repl.type (f + 1) st
              = .error (.error ("invalid replacement value (a " ++ luaL_typename
                  (pushes (after_host st.L w1 (host_event repl sv st.it.mtch)) [v]) (-1)
                  ++ ")")) := by
            simp only [gsub_loop, hc, hlim, and_self, if_true, hb]
          rw [hloop]
          constructor
          · intro _
            simp [rejects, hans, hv, hs]
          · intro _
            exact ⟨_, rfl⟩
        · obtain ⟨res, hbody⟩ : ∃ res, gsub_body E H sv repl.type st
              = .ok ⟨after_host st.L w1 (host_event repl sv st.it.mtch), st.n + 1, res,
                  st.it, st.last_it⟩ := by
            by_cases hv : v.truthy = true
            · have hs : ¬ v.isstring = false := by
                intro hs
                apply hrej
                simp [hv, hs]
              simp only [hv, hs, if_true, if_false, hcnt] at hb
              exact ⟨_, hb⟩
            · have hv0 : v.truthy = false := by simpa using hv
              simp only [hv0, Bool.false_eq_true, if_false, hcnt, if_true] at hb
              exact ⟨_, hb⟩
          cases hinc : st.it.incr E sv with
          | error e => rw [hinc] at hstep; exact hstep.elim
          | ok it1 =>
            rw [hinc] at hstep
            have hunf : gsub_loop E H sv N repl.type (f + 1) st
                = gsub_loop E H sv N repl.type f
                    ⟨after_host st.L w1 (host_event repl sv st.it.mtch), st.n + 1, res,
                      it1, st.it⟩ := by
              simp only [gsub_loop, hc, hlim, and_self, if_true, hbody, hinc]
            rw [hunf]
            have hih := ih ⟨after_host st.L w1 (host_event repl sv st.it.mtch), st.n + 1, res,
              it1, st.it⟩ f hstep (by simp at hfuel; omega) hidx hmax1
            rw [hih]
            have hrej0 : (v.truthy && !v.isstring) = false := by simpa using hrej
            simp only [rejects, hans, hrej0, Bool.false_eq_true, if_false, after_host]
    · have hloop : gsub_loop E H sv N repl.type (f + 1) st = .ok st := by
        simp only [gsub_loop, hc, hlim, and_false, if_false]
      rw [hloop, quota_stop N st.n _ hlim]
      constructor
      · rintro ⟨tn, h⟩
        cases h
      · intro h
        simp [rejects] at h

end rejects_facts


section claims_replacement_value

variable {R W : Type} [DecidableEq R] (E : Engine R) (H : Host W)

/-- C12 (amended): for a callback or a table replacement and a limit that fits an `int`,
`gsub` over a subject with the matches `its` (given fuel for them) fails with the error
"invalid replacement value" if and only if, among the matches it processes (the first
`min(k, T)` for a limit `k > 0`, all `T` for the limit 0 or none given, no match for
`k < 0`; no more of them than an `int` can count, which only bears on the case without
a limit), asked in order, some match gets an answer that is truthy and neither a string
nor a number; and when it returns, the callback or table was consulted once for each
processed match and never for a match beyond the limit. -/
theorem C12_replacement_value_error_iff_processed_answer_rejected
    (L L2 : lua_State R W) (s : Text) (re : R) (repl : LuaValue) (N0 : Int)
    (its : List (regex_iterator R)) (fuel : Nat)
    (h1 : index2value L 1 = some (.string s))
    (hre : get_regex E H L = .ok (re, L2))
    (h3 : index2value L 3 = some repl)
    (hty : repl.type = .TTABLE ∨ repl.type = .TFUNCTION)
    (hN : luaL_optinteger H L 4 0 = .ok N0)
    (hmin : INT_MIN ≤ N0) (hmax : N0 ≤ INT_MAX)
    (hseq : iter_seq E (c_str s) (regex_iterator.ctor E re (c_str s) 0 (c_str s).length) its)
    (hfuel : its.length < fuel) (hcount : (processed N0 its.length : Int) ≤ INT_MAX) :
    ((∃ tn, gsub E H fuel L = .error (.error ("invalid replacement value (a " ++ tn ++ ")")))
      ↔ rejects H repl (c_str s) L.world
          ((its.take (processed N0 its.length)).map (fun it => it.mtch)) = true)
    ∧ (∀ r, gsub E H fuel L = .ok r →
        r.2.events.length = L.events.length + processed N0 its.length) := by
  have hf := get_regex_frame E H L L2 re hre
  have i3 : index2value L2 3 = some repl :=
    (get_regex_index E H L L2 re hre 3 (by omega) (by omega)).trans h3
  have hlt : lua_type L 3 = repl.type := by simp only [lua_type, h3]
  have hrepl : lua_isstring L 3 = true ∨ lua_isfunction L 3 = true ∨ lua_istable L 3 = true := by
    rcases hty with h | h
    · exact Or.inr (Or.inr (by simp only [lua_istable, hlt, h, decide_True]))
    · exact Or.inr (Or.inl (by simp only [lua_isfunction, hlt, h, decide_True]))
  constructor
  · have i4 : index2value L2 ((4 : Nat) : Int) = index2value L ((4 : Nat) : Int) :=
      get_regex_index E H L L2 re hre 4 (by omega) (by omega)
    have hrepl2 : ¬ (lua_isstring L2 3 = false ∧ lua_isfunction L2 3 = false
        ∧ lua_istable L2 3 = false) := by
      have e2 : lua_isfunction L2 3 = lua_isfunction L 3 := by
        simp only [lua_isfunction, lua_type, i3, h3]
      have e3 : lua_istable L2 3 = lua_istable L 3 := by
        simp only [lua_istable, lua_type, i3, h3]
      rw [e2, e3]
      rintro ⟨-, b, c⟩
      rcases hty with h | h
      · simp only [lua_istable, hlt, h, decide_True] at c
        cases c
      · simp only [lua_isfunction, hlt, h, decide_True] at b
        cases b
    have hN2 : luaL_optinteger H L2 4 0 = .ok N0 := by
      rw [← hN]
      simp only [luaL_optinteger, i4]
    have hty3 : lua_type L2 3 = repl.type := by simp only [lua_type, i3]
    have hcs : luaL_checkstring H L 1 = .ok (s, L) := luaL_checkstring_string H L 1 s h1
    have hiff := gsub_loop_rejects E H (c_str s) (to_int N0) repl hty its
      ⟨L2, 0, [], regex_iterator.ctor E re (c_str s) 0 (c_str s).length,
        regex_iterator.ctor E re (c_str s) 0 (c_str s).length⟩ fuel hseq hfuel i3
      (by
        show (0 : Int) + (quota (to_int N0) 0 its.length : Int) ≤ INT_MAX
        rw [quota_processed N0 its.length hmin hmax]
        omega)
    simp only [quota_processed N0 its.length hmin hmax, hf.1] at hiff
    rw [← hiff]
    simp only [gsub, hcs, hre, hrepl2, if_false, hN2, hty3]
    cases hl : gsub_loop E H (c_str s) (to_int N0) repl.type fuel
        ⟨L2, 0, [], regex_iterator.ctor E re (c_str s) 0 (c_str s).length,
          regex_iterator.ctor E re (c_str s) 0 (c_str s).length⟩ with
    | error e =>
      simp only
      constructor
      · rintro ⟨tn, h⟩
        cases h
        exact ⟨tn, rfl⟩
      · rintro ⟨tn, h⟩
        cases h
        exact ⟨tn, rfl⟩
    | ok st =>
      simp only
      constructor
      · rintro ⟨tn, h⟩
        cases h
      · rintro ⟨tn, h⟩
        cases h
  · intro r hr
    rcases gsub_counts E H L L2 s re N0 its fuel h1 hre hrepl hN hseq hfuel
      with ⟨e, he, -⟩ | ⟨Lf, text, hok, -, hev⟩
    · rw [he] at hr
      cases hr
    · rw [hok] at hr
      cases hr
      rw [hev, hlt, quota_processed N0 its.length hmin hmax]
      simp only [calls_for, hty, if_true]

end claims_replacement_value

/-- The call `regex.gsub("aaa", "a", f)` with an `f` that answers `true`: no limit is
given, the first match is processed and its answer is truthy and not text-like, so the
call fails with the error "invalid replacement value". -/
theorem C12_replacement_value_witness :
    ∃ tn, gsub literal_engine (answering_host (fun _ => .boolean true)) 4
        (enter [str "aaa", str "a", .function 0])
      = .error (.error ("invalid replacement value (a " ++ tn ++ ")")) :=
  (C12_replacement_value_error_iff_processed_answer_rejected literal_engine
    (answering_host (fun _ => .boolean true))
    (enter [str "aaa", str "a", .function 0]) (enter [str "aaa", str "a", .function 0])
    "aaa".toList [(false, "a".toList)] (.function 0) 0
    (matches_of literal_engine "aaa".toList 7
      (regex_iterator.ctor literal_engine [(false, "a".toList)] "aaa".toList 0 3))
    4 rfl rfl rfl (Or.inr rfl) rfl (by decide) (by decide) (by decide) (by decide)
    (by decide)).1.mpr (by decide)

/-- C12 (as stated, refuted): `regex.gsub("aaa", "a", f, -1)` with an `f` that answers
`true` has three matches, and the first of them would get an answer that is truthy and
not text-like; the limit is neither positive nor absent, yet no match is processed: the
call makes no request and returns the subject and the count 0, with no error. -/
theorem C12_negative_limit_processes_no_match :
    (gsub literal_engine (answering_host (fun _ => .boolean true)) 4
        (enter [str "aaa", str "a", .function 0, .integer (-1)])).map
        (fun r => (returned r, r.2.events))
      = .ok ([str "aaa", .integer 0], [])
    ∧ (matches_of literal_engine "aaa".toList 7
        (regex_iterator.ctor literal_engine [(false, "a".toList)] "aaa".toList 0 3)).length = 3
    ∧ rejects (answering_host (fun _ => .boolean true)) (.function 0) "aaa".toList 0
        ((matches_of literal_engine "aaa".toList 7
          (regex_iterator.ctor literal_engine [(false, "a".toList)] "aaa".toList 0 3)).map
            (fun it => it.mtch)) = true :=
  ⟨rfl, rfl, rfl⟩

end LuaStdRegex
